import Mathlib

/-!
# kapp: convergence of applied resources and the recorded app

A shallow embedding of

* `pkg/kapp/clusterapply/converged_resource.go` (`ConvergedResource`), and
* `pkg/kapp/app/recorded_app.go` (`RecordedApp`),

followed by the properties proved about them.

Conventions of the embedding.

* A Go `error` is an `Option String` holding the error text; `none` is `nil`.
* A Go `map[string]string` is a function `String → Option String`; a map value
  that may be `nil` is an `Option` of such a function.
* A Go slice is a `List`.  Where a callee writes through a slice that the
  caller still holds, the callee's model also returns what the caller sees.
* Code that lives outside the two files (the resource interface, the per-kind
  classifiers of package `resourcesmisc`, `sort.Slice`, the colouring of the
  progress prefixes) is taken as a parameter.
-/

namespace Kapp

/-! ## Package `resourcesmisc`: the classification result -/

/-- The result of classifying one resource (`ctlresm.DoneApplyState`). -/
structure DoneApplyState where
  Done : Bool := false
  Successful : Bool := false
  Message : String := ""
deriving DecidableEq, Repr

/-- Modelled from the spec: `DoneApplyState.TerminallyFailed` is declared in package
`resourcesmisc`, outside the files embedded here; the spec gives it as the derived
predicate "terminally failed" (`Done && !Successful`). -/
def DoneApplyState.TerminallyFailed (s : DoneApplyState) : Bool :=
  s.Done && !s.Successful

/-- A value of the interface `SpecificResource`: all that `ConvergedResource` asks of it
is its `IsDoneApplying()`. -/
structure SpecificResource where
  IsDoneApplying : DoneApplyState
deriving DecidableEq, Repr

/-! ## Parameters: what `converged_resource.go` imports -/

/-- The methods of `ctlres.Resource` that `ConvergedResource` calls, over a type `R` of
resources.  `UniqueResourceKey r` stands for `ctlres.NewUniqueResourceKey(r).String()`. -/
structure ResourceOps (R : Type) where
  Description : R → String
  Annotations : R → String → Option String
  UniqueResourceKey : R → String

/-- The nine constructors of package `resourcesmisc` called by `isResourceDoneApplying`.
Each returns `none` for the nil interface value (the resource is not of its kind). -/
structure Factories (R : Type) where
  NewKappctrlK14sIoV1alpha1App : R → Option SpecificResource
  NewDeleting : R → Option SpecificResource
  NewApiExtensionsVxCRD : R → Option SpecificResource
  NewCoreV1Pod : R → Option SpecificResource
  NewCoreV1Service : R → Option SpecificResource
  NewAppsV1Deployment : R → List R → Option SpecificResource
  NewAppsV1DaemonSet : R → Option SpecificResource
  NewBatchV1Job : R → Option SpecificResource
  NewBatchVxCronJob : R → Option SpecificResource

/-- The contract of `sort.Slice(rs, less)` for the comparator of
`findParentAndAssociatedRes`, `less i j = Description rs[i] > Description rs[j]`: the
outcome is a rearrangement of the input in which no element is `less` than an earlier
one.  The sort is not stable, so nothing more is known about resources with equal
descriptions. -/
structure SortSlice (R : Type) (Description : R → String) where
  sort : List R → List R
  perm : ∀ l, (sort l).Perm l
  sorted : ∀ l, (sort l).Pairwise (fun a b => ¬ Description a < Description b)

/-- The progress-line pieces of package `clusterapply` that depend on the colour
library or on `NewDoneApplyStateUI` (declared in another file): the two prefixes and the
state label `NewDoneApplyStateUI(state, nil).State`. -/
structure WaitUI where
  uiWaitChildPrefix : String
  uiWaitMsgPrefix : String
  stateLabel : DoneApplyState → String

/-- Everything `ConvergedResource` depends on. -/
structure Env (R : Type) where
  ops : ResourceOps R
  factories : Factories R
  sortSlice : SortSlice R ops.Description
  ui : WaitUI

/-! ## `converged_resource.go` -/

/-- The constant `disableAssociatedResourcesWaitingAnnKey`. -/
def disableAssociatedResourcesWaitingAnnKey : String :=
  "kapp.k14s.io/disable-associated-resources-wait"

/-- The struct `ConvergedResource`. -/
structure ConvergedResource (R : Type) where
  res : R
  associatedRs : List R

/-- Function `NewConvergedResource`. -/
def NewConvergedResource {R : Type} (res : R) (associatedRs : List R) : ConvergedResource R :=
  ⟨res, associatedRs⟩

/-- What `findParentAndAssociatedRes` leaves behind: its three results, and
`receiverRs`, the contents of the caller's `c.associatedRs` afterwards.  The method has a
value receiver, so the caller's slice keeps its length, but the sort and the removal
write through to the backing array both slices share. -/
structure FoundRes (R : Type) where
  convergedRes : R
  associatedRs : List R
  err : Option String
  receiverRs : List R

/-- Method `ConvergedResource.findParentAndAssociatedRes`.  After the sort the first resource
with the primary's key is removed by `append(rs[:i], rs[i+1:]...)`, which shifts the
tail of the shared array one place down and leaves its last cell as it was. -/
def findParentAndAssociatedRes {R : Type} (E : Env R) (c : ConvergedResource R) : FoundRes R :=
  let convergedRes := c.res
  let convergedResKey := E.ops.UniqueResourceKey convergedRes
  let sorted := E.sortSlice.sort c.associatedRs
  let isParent : R → Bool := fun res => convergedResKey == E.ops.UniqueResourceKey res
  let removed := sorted.eraseP isParent
  { convergedRes := convergedRes
    associatedRs := removed
    err := none
    receiverRs :=
      if sorted.any isParent then removed ++ sorted.drop (sorted.length - 1) else sorted }

/-- The list `specificResFactories` of `isResourceDoneApplying`, in its order; the
Deployment constructor is closed over the receiver's `c.associatedRs`. -/
def specificResFactories {R : Type} (F : Factories R) (associatedRs : List R) :
    List (R → Option SpecificResource) :=
  [ F.NewKappctrlK14sIoV1alpha1App,
    F.NewDeleting,
    F.NewApiExtensionsVxCRD,
    F.NewCoreV1Pod,
    F.NewCoreV1Service,
    fun res => F.NewAppsV1Deployment res associatedRs,
    F.NewAppsV1DaemonSet,
    F.NewBatchV1Job,
    F.NewBatchVxCronJob ]

/-- The loop of `isResourceDoneApplying` over the factories: the first one that returns
a non-nil value decides. -/
def firstSpecific {R : Type} (res : R) :
    List (R → Option SpecificResource) → Option DoneApplyState × Option String
  | [] => (none, none)
  | f :: fs =>
    match f res with
    | some specific => (some specific.IsDoneApplying, none)
    | none => firstSpecific res fs

/-- Method `ConvergedResource.isResourceDoneApplying`: the state (`none` for the nil pointer)
and the error. -/
def isResourceDoneApplying {R : Type} (E : Env R) (c : ConvergedResource R) (res : R) :
    Option DoneApplyState × Option String :=
  firstSpecific res (specificResFactories E.factories c.associatedRs)

/-- Method `ConvergedResource.buildParentDescMsg`. -/
def buildParentDescMsg {R : Type} (E : Env R) (_res : R) (state : DoneApplyState) : List String :=
  if state.Message.length > 0 then [E.ui.uiWaitMsgPrefix ++ state.Message] else []

/-- Method `ConvergedResource.buildChildDescMsg`. -/
def buildChildDescMsg {R : Type} (E : Env R) (res : R) (state : DoneApplyState) : List String :=
  let msgs := [E.ui.uiWaitChildPrefix ++ E.ui.stateLabel state ++ ": waiting on " ++
    E.ops.Description res]
  if state.Message.length > 0 then
    msgs ++ [("   " ++ E.ui.uiWaitMsgPrefix) ++ state.Message]
  else msgs

/-- The results of `IsDoneApplying`: state, progress messages, error. -/
abbrev Outcome := DoneApplyState × List String × Option String

/-- The first loop of `IsDoneApplying`, over the associated resources: either it returns
from `IsDoneApplying` early (`Sum.inl`), or it ends with the collected states and
messages (`Sum.inr`). -/
def classifyAssociated {R : Type} (E : Env R) (c : ConvergedResource R) :
    List R → List DoneApplyState → List String → Outcome ⊕ (List DoneApplyState × List String)
  | [], associatedRsStates, descMsgs => Sum.inr (associatedRsStates, descMsgs)
  | res :: rest, associatedRsStates, descMsgs =>
    let (state?, err) := isResourceDoneApplying E c res
    let state : DoneApplyState :=
      match state? with
      | some s => s
      | none => { Done := true, Successful := true }
    match err with
    | some e => Sum.inl (state, descMsgs, some e)
    | none =>
      classifyAssociated E c rest (associatedRsStates ++ [state])
        (descMsgs ++ buildChildDescMsg E res state)

/-- The text of the error for an opt-out annotation with a value. -/
def annotationErrorText (description : String) : String :=
  "Expected annotation '" ++ disableAssociatedResourcesWaitingAnnKey ++ "' on resource '" ++
    description ++ "' to have value ''"

/-- The two last loops of `IsDoneApplying`: the first terminally failed state, else the
first state that is not done, else success. -/
def verdictOfAssociated (associatedRsStates : List DoneApplyState) : DoneApplyState :=
  match associatedRsStates.find? (fun state => state.TerminallyFailed) with
  | some state => state
  | none =>
    match associatedRsStates.find? (fun state => !state.Done) with
    | some state => state
    | none => { Done := true, Successful := true }

/-- Method `ConvergedResource.IsDoneApplying`.  `c1` is the receiver as the method sees it after
the call of `findParentAndAssociatedRes`: same primary, `associatedRs` over the
rewritten backing array. -/
def IsDoneApplying {R : Type} (E : Env R) (c : ConvergedResource R) : Outcome :=
  let descMsgs : List String := []
  let found := findParentAndAssociatedRes E c
  let c1 : ConvergedResource R := { c with associatedRs := found.receiverRs }
  let convergedRes := found.convergedRes
  let associatedRs := found.associatedRs
  match found.err with
  | some err => ({ Done := true }, descMsgs, some err)
  | none =>
    let (convergedResState, err) := isResourceDoneApplying E c1 convergedRes
    match err with
    | some err => ({ Done := true }, descMsgs, some err)
    | none =>
      let fast : Option Outcome :=
        match convergedResState with
        | some st => if st.Done then some (st, descMsgs, none) else none
        | none => none
      match fast with
      | some out => out
      | none =>
        let descMsgs :=
          match convergedResState with
          | some st =>
            if !st.Successful && associatedRs.length > 0 then
              descMsgs ++ buildParentDescMsg E convergedRes st
            else descMsgs
          | none => descMsgs
        match E.ops.Annotations convergedRes disableAssociatedResourcesWaitingAnnKey with
        | some disableARWVal =>
          if disableARWVal != "" then
            ({ Done := true }, descMsgs,
              some (annotationErrorText (E.ops.Description convergedRes)))
          else
            match convergedResState with
            | some st => (st, descMsgs, none)
            | none => ({ Done := true, Successful := true }, descMsgs, none)
        | none =>
          match classifyAssociated E c1 associatedRs [] descMsgs with
          | Sum.inl out => out
          | Sum.inr (associatedRsStates, descMsgs) =>
            match convergedResState with
            | some st => (st, descMsgs, none)
            | none => (verdictOfAssociated associatedRsStates, descMsgs, none)

/-! ## Package `app`: what `recorded_app.go` imports -/

/-- The outcome of running a Go function: it returns a value, or it panics. -/
inductive Completion (α : Type) where
  | returned (value : α)
  | panicked (reason : String)

/-- The entries of a `map[string]string` in the order a `range` loop visits them.  Go
leaves that order unspecified; the keys of a map are distinct. -/
abbrev MapEntries := List (String × String)

/-- The value `entries` holds for `key`. -/
def MapEntries.get (entries : MapEntries) (key : String) : Option String :=
  (entries.find? (fun kv => kv.1 == key)).map Prod.snd

/-- The persisted record `AppMeta`, over the type `M` of change metadata (`ChangeMeta`,
declared in another file of the package and opaque here). -/
structure AppMeta (M : Type) where
  LabelKey : String
  LabelValue : String
  LastChangeName : String
  LastChange : M

/-- The declarations of package `app` used by `recorded_app.go` and made in its other
files: the marker label of an app record, the zero `ChangeMeta`, and the two directions of
the record's serialisation. -/
structure AppEnv (M : Type) where
  KappIsAppLabelKey : String
  kappIsAppLabelValue : String
  zeroChangeMeta : M
  AsData : AppMeta M → String → Option String
  NewAppMetaFromData : (String → Option String) → Except String (AppMeta M)

/-- The constant `kappAppLabelKey`. -/
def kappAppLabelKey : String := "kapp.k14s.io/app"

/-- The fields of `metav1.ObjectMeta` that `recorded_app.go` names, and two of those it
resets in `Rename`.  `Labels` and `Annotations` may be nil maps. -/
structure ObjectMeta where
  Name : String := ""
  Namespace : String := ""
  Labels : Option (String → Option String) := none
  Annotations : Option (String → Option String) := none
  UID : String := ""
  ResourceVersion : String := ""

/-- A `corev1.ConfigMap`.  `Data` is only read or replaced as a whole, so a nil `Data`
is the map without entries. -/
structure ConfigMap where
  ObjectMeta : ObjectMeta := {}
  Data : String → Option String := fun _ => none

/-- Why a call of the store failed, as far as `errors.IsAlreadyExists` and
`errors.IsNotFound` tell. -/
inductive StatusReason where
  | AlreadyExists
  | NotFound
  | Other
deriving DecidableEq, Repr

/-- An error returned by the store's client. -/
structure ClientError where
  reason : StatusReason
  text : String
deriving DecidableEq, Repr

/-- The calls `coreClient.CoreV1().ConfigMaps(nsName)` offers, over a store whose
contents are of type `σ`; the first argument is `nsName`. -/
structure CoreClient (σ : Type) where
  Create : String → ConfigMap → σ → Except ClientError ConfigMap × σ
  Get : String → String → σ → Except ClientError ConfigMap × σ
  Update : String → ConfigMap → σ → Except ClientError ConfigMap × σ
  Delete : String → String → σ → Option ClientError × σ

/-! ## `recorded_app.go` -/

/-- The struct `RecordedApp` (its clients and logger are parameters of the methods). -/
structure RecordedApp (M : Type) where
  name : String
  nsName : String
  memoizedMeta : Option (AppMeta M) := none

/-- The text of the error of `mergeAppUpdates`. -/
def labelErrorText (key : String) : String :=
  "Expected label '" ++ key ++ "' value to remain same"

/-- Method `RecordedApp.mergeAppUpdates`: the config map as the loop leaves it, and how the
method ended.  Writing to a nil `Labels` map panics. -/
def mergeAppUpdates : ConfigMap → MapEntries → ConfigMap × Completion (Option String)
  | cm, [] => (cm, Completion.returned none)
  | cm, (key, val) :: rest =>
    let prev : Option String :=
      match cm.ObjectMeta.Labels with
      | some m => m key
      | none => none
    let conflict : Bool :=
      match prev with
      | some prevVal => prevVal != val
      | none => false
    if conflict then (cm, Completion.returned (some (labelErrorText key)))
    else
      match cm.ObjectMeta.Labels with
      | none => (cm, Completion.panicked "assignment to entry in nil map")
      | some m =>
        mergeAppUpdates
          { cm with ObjectMeta := { cm.ObjectMeta with
              Labels := some (fun k => if k = key then some val else m k) } }
          rest

/-- Method `RecordedApp.CreateOrUpdate`, run on the store contents `s` at the clock reading
`unixNano` (`time.Now().UTC().UnixNano()`): how it ended and the store afterwards. -/
def CreateOrUpdate {M σ : Type} (A : AppEnv M) (client : CoreClient σ) (a : RecordedApp M)
    (unixNano : Int) (labels : MapEntries) (s : σ) : Completion (Option String) × σ :=
  let configMap : ConfigMap :=
    { ObjectMeta :=
        { Name := a.name
          Namespace := a.nsName
          Labels := some (fun k =>
            if k = A.KappIsAppLabelKey then some A.kappIsAppLabelValue else none) }
      Data := A.AsData
        { LabelKey := kappAppLabelKey
          LabelValue := toString unixNano
          LastChangeName := ""
          LastChange := A.zeroChangeMeta } }
  match mergeAppUpdates configMap labels with
  | (_, Completion.panicked reason) => (Completion.panicked reason, s)
  | (_, Completion.returned (some err)) => (Completion.returned (some err), s)
  | (configMap, Completion.returned none) =>
    match client.Create a.nsName configMap s with
    | (Except.ok _, s1) => (Completion.returned none, s1)
    | (Except.error err, s1) =>
      if err.reason = StatusReason.AlreadyExists then
        match client.Get a.nsName a.name s1 with
        | (Except.error err, s2) =>
          (Completion.returned (some ("Getting app: " ++ err.text)), s2)
        | (Except.ok existingConfigMap, s2) =>
          match mergeAppUpdates existingConfigMap labels with
          | (_, Completion.panicked reason) => (Completion.panicked reason, s2)
          | (_, Completion.returned (some err)) => (Completion.returned (some err), s2)
          | (existingConfigMap, Completion.returned none) =>
            match client.Update a.nsName existingConfigMap s2 with
            | (Except.error err, s3) =>
              (Completion.returned (some ("Updating app: " ++ err.text)), s3)
            | (Except.ok _, s3) => (Completion.returned none, s3)
      else (Completion.returned (some ("Creating app: " ++ err.text)), s1)

/-- The struct `ChangeImpl`, as `LastChange` fills it (its client is a parameter of the
operations). -/
structure ChangeImpl (M : Type) where
  name : String
  nsName : String
  meta : M

/-- Modelled from the spec: `ChangeImpl.Name` is declared in another file of the package;
the spec has a change identified by its name, which `LastChange` stores in the field
`name`. -/
def ChangeImpl.Name {M : Type} (c : ChangeImpl M) : String :=
  c.name

/-- The operations of `RecordedAppChanges` (`NewRecordedAppChanges(nsName, name,
coreClient)`, given here by `nsName` and `name`) and of `ChangeImpl` that
`recorded_app.go` calls; they are declared in other files of the package.  `Fail` and
`Succeed` have a pointer receiver: they also return the change as they leave it. -/
structure ChangeOps (M σ : Type) where
  Begin : String → String → M → σ → Except String (ChangeImpl M) × σ
  List : String → String → σ → Except String (List (ChangeImpl M)) × σ
  DeleteAll : String → String → σ → Option String × σ
  Fail : ChangeImpl M → σ → (Option String × ChangeImpl M) × σ
  Succeed : ChangeImpl M → σ → (Option String × ChangeImpl M) × σ
  Delete : ChangeImpl M → σ → Option String × σ

/-- The struct `LabeledApp` built by `labeledApp`: the selector
`labels.Set(meta.Labels()).AsSelector()`, given by its label set; the resources client is
a parameter of the operations. -/
structure LabeledApp where
  labelSelector : String → Option String

/-- The method `AppMeta.Labels` and the methods of `LabeledApp` that `recorded_app.go`
calls; they are declared in other files of the package. -/
structure LabeledAppOps (M σ : Type) where
  Labels : AppMeta M → String → Option String
  LabelSelector : LabeledApp → Except String (String → Option String)
  Delete : LabeledApp → σ → Option String × σ

/-- Method `RecordedApp.setMeta`: the result, and the handle with its cache. -/
def RecordedApp.setMeta {M : Type} (A : AppEnv M) (a : RecordedApp M) (app : ConfigMap) :
    Except String (AppMeta M) × RecordedApp M :=
  match A.NewAppMetaFromData app.Data with
  | Except.error err =>
    (Except.error ("App '" ++ a.name ++ "' (namespace: " ++ a.nsName ++
      ") backed by ConfigMap '" ++ a.name ++
      "' did not contain parseable app metadata: " ++ err ++
      " (hint: ConfigMap was overriden by another user?)"), a)
  | Except.ok appMeta => (Except.ok appMeta, { a with memoizedMeta := some appMeta })

/-- Method `RecordedApp.meta`: the result, the handle afterwards, and the store. -/
def RecordedApp.meta {M σ : Type} (A : AppEnv M) (client : CoreClient σ) (a : RecordedApp M)
    (s : σ) : (Except String (AppMeta M) × RecordedApp M) × σ :=
  match a.memoizedMeta with
  | some appMeta => ((Except.ok appMeta, a), s)
  | none =>
    match client.Get a.nsName a.name s with
    | (Except.error err, s1) =>
      if err.reason = StatusReason.NotFound then
        ((Except.error ("App '" ++ a.name ++ "' (namespace: " ++ a.nsName ++
          ") does not exist: " ++ err.text), a), s1)
      else ((Except.error ("Getting app: " ++ err.text), a), s1)
    | (Except.ok app, s1) => (a.setMeta A app, s1)

/-- Method `RecordedApp.Meta`. -/
def RecordedApp.Meta {M σ : Type} (A : AppEnv M) (client : CoreClient σ) (a : RecordedApp M)
    (s : σ) : (Except String (AppMeta M) × RecordedApp M) × σ :=
  a.meta A client s

/-- Method `RecordedApp.labeledApp`. -/
def RecordedApp.labeledApp {M σ : Type} (A : AppEnv M) (client : CoreClient σ)
    (labeled : LabeledAppOps M σ) (a : RecordedApp M) (s : σ) :
    (Except String LabeledApp × RecordedApp M) × σ :=
  match a.meta A client s with
  | ((Except.error err, a1), s1) => ((Except.error err, a1), s1)
  | ((Except.ok appMeta, a1), s1) => ((Except.ok ⟨labeled.Labels appMeta⟩, a1), s1)

/-- Method `RecordedApp.LabelSelector`. -/
def RecordedApp.LabelSelector {M σ : Type} (A : AppEnv M) (client : CoreClient σ)
    (labeled : LabeledAppOps M σ) (a : RecordedApp M) (s : σ) :
    (Except String (String → Option String) × RecordedApp M) × σ :=
  match a.labeledApp A client labeled s with
  | ((Except.error err, a1), s1) => ((Except.error err, a1), s1)
  | ((Except.ok app, a1), s1) => ((labeled.LabelSelector app, a1), s1)

/-- Method `RecordedApp.Delete`: the error, the handle afterwards, and the store. -/
def RecordedApp.Delete {M σ : Type} (A : AppEnv M) (client : CoreClient σ)
    (changes : ChangeOps M σ) (labeled : LabeledAppOps M σ) (a : RecordedApp M) (s : σ) :
    (Option String × RecordedApp M) × σ :=
  match a.labeledApp A client labeled s with
  | ((Except.error err, a1), s1) => ((some err, a1), s1)
  | ((Except.ok app, a1), s1) =>
    match changes.DeleteAll a.nsName a.name s1 with
    | (some err, s2) => ((some ("Deleting app changes: " ++ err), a1), s2)
    | (none, s2) =>
      match labeled.Delete app s2 with
      | (some err, s3) => ((some err, a1), s3)
      | (none, s3) =>
        match client.Delete a.nsName a.name s3 with
        | (some err, s4) => ((some ("Deleting app: " ++ err.text), a1), s4)
        | (none, s4) => ((none, a1), s4)

/-- Method `RecordedApp.Rename`. -/
def RecordedApp.Rename {M σ : Type} (client : CoreClient σ) (a : RecordedApp M)
    (newName : String) (s : σ) : Option String × σ :=
  match client.Get a.nsName a.name s with
  | (Except.error err, s1) =>
    if err.reason = StatusReason.NotFound then
      (some ("App '" ++ a.name ++ "' (namespace: " ++ a.nsName ++ ") does not exist: " ++
        err.text), s1)
    else (some ("Getting app: " ++ err.text), s1)
  | (Except.ok app, s1) =>
    let app : ConfigMap :=
      { app with ObjectMeta :=
          { Name := newName
            Namespace := a.nsName
            Labels := app.ObjectMeta.Labels
            Annotations := app.ObjectMeta.Annotations } }
    match client.Create a.nsName app s1 with
    | (Except.error err, s2) => (some ("Creating app: " ++ err.text), s2)
    | (Except.ok _, s2) =>
      match client.Delete a.nsName a.name s2 with
      | (some err, s3) => (some ("Deleting app: " ++ err.text), s3)
      | (none, s3) => (none, s3)

/-- Method `RecordedApp.LastChange`: the change (`none` for the nil interface) or the
error, the handle afterwards, and the store. -/
def RecordedApp.LastChange {M σ : Type} (A : AppEnv M) (client : CoreClient σ)
    (a : RecordedApp M) (s : σ) :
    (Except String (Option (ChangeImpl M)) × RecordedApp M) × σ :=
  match a.meta A client s with
  | ((Except.error err, a1), s1) => ((Except.error err, a1), s1)
  | ((Except.ok appMeta, a1), s1) =>
    if appMeta.LastChangeName.length = 0 then ((Except.ok none, a1), s1)
    else
      ((Except.ok (some
          { name := appMeta.LastChangeName
            nsName := a.nsName
            meta := appMeta.LastChange }), a1), s1)

/-- Method `RecordedApp.update`.  It reads and writes no field of the handle but `name`
and `nsName`. -/
def RecordedApp.update {M σ : Type} (A : AppEnv M) (client : CoreClient σ) (a : RecordedApp M)
    (doFunc : AppMeta M → AppMeta M) (s : σ) : Option String × σ :=
  match client.Get a.nsName a.name s with
  | (Except.error err, s1) => (some ("Getting app: " ++ err.text), s1)
  | (Except.ok change, s1) =>
    match A.NewAppMetaFromData change.Data with
    | Except.error err => (some err, s1)
    | Except.ok appMeta =>
      let appMeta := doFunc appMeta
      let change : ConfigMap := { change with Data := A.AsData appMeta }
      match client.Update a.nsName change s1 with
      | (Except.error err, s2) => (some ("Updating app: " ++ err.text), s2)
      | (Except.ok _, s2) => (none, s2)

/-- The struct `appTrackingChange`.  Its `app` is a pointer to the handle; the methods
below reach through it only `update`, which leaves the handle as it is. -/
structure appTrackingChange (M : Type) where
  change : ChangeImpl M
  app : RecordedApp M

/-- Method `appTrackingChange.Name`. -/
def appTrackingChange.Name {M : Type} (c : appTrackingChange M) : String :=
  c.change.Name

/-- Method `appTrackingChange.Meta`. -/
def appTrackingChange.Meta {M : Type} (c : appTrackingChange M) : M :=
  c.change.meta

/-- Method `appTrackingChange.syncOnApp`. -/
def appTrackingChange.syncOnApp {M σ : Type} (A : AppEnv M) (client : CoreClient σ)
    (c : appTrackingChange M) (s : σ) : Option String × σ :=
  c.app.update A client
    (fun appMeta =>
      { appMeta with LastChangeName := c.change.Name, LastChange := c.change.meta }) s

/-- Method `appTrackingChange.Fail`: the error, the handle of the change afterwards, and
the store. -/
def appTrackingChange.Fail {M σ : Type} (A : AppEnv M) (client : CoreClient σ)
    (changes : ChangeOps M σ) (c : appTrackingChange M) (s : σ) :
    (Option String × appTrackingChange M) × σ :=
  match changes.Fail c.change s with
  | ((some err, change), s1) => ((some err, { c with change := change }), s1)
  | ((none, change), s1) =>
    let c1 : appTrackingChange M := { c with change := change }
    ((none, c1), (c1.syncOnApp A client s1).2)

/-- Method `appTrackingChange.Succeed`. -/
def appTrackingChange.Succeed {M σ : Type} (A : AppEnv M) (client : CoreClient σ)
    (changes : ChangeOps M σ) (c : appTrackingChange M) (s : σ) :
    (Option String × appTrackingChange M) × σ :=
  match changes.Succeed c.change s with
  | ((some err, change), s1) => ((some err, { c with change := change }), s1)
  | ((none, change), s1) =>
    let c1 : appTrackingChange M := { c with change := change }
    ((none, c1), (c1.syncOnApp A client s1).2)

/-- Method `appTrackingChange.Delete`. -/
def appTrackingChange.Delete {M σ : Type} (changes : ChangeOps M σ)
    (c : appTrackingChange M) (s : σ) : Option String × σ :=
  changes.Delete c.change s

/-- Method `RecordedApp.BeginChange`: the tracking change or the error, and the store. -/
def RecordedApp.BeginChange {M σ : Type} (A : AppEnv M) (client : CoreClient σ)
    (changes : ChangeOps M σ) (a : RecordedApp M) (changeMeta : M) (s : σ) :
    Except String (appTrackingChange M) × σ :=
  match changes.Begin a.nsName a.name changeMeta s with
  | (Except.error err, s1) => (Except.error err, s1)
  | (Except.ok change, s1) =>
    let memoizingChange : appTrackingChange M := { change := change, app := a }
    match memoizingChange.syncOnApp A client s1 with
    | (some err, s2) => (Except.error err, (changes.Fail change s2).2)
    | (none, s2) => (Except.ok memoizingChange, s2)

/-! ## A store that keeps what it is given -/

/-- The contents of the store: the config map held under a namespace and a name. -/
abbrev Store := String × String → Option ConfigMap

/-- A client of an in-memory store without faults: `Create` fails with already-exists on
a present name and stores the object otherwise, `Get` returns a copy of what is stored,
`Update` replaces a present object, `Delete` removes one. -/
def memClient : CoreClient Store where
  Create := fun ns cm s =>
    match s (ns, cm.ObjectMeta.Name) with
    | some _ =>
      (Except.error ⟨StatusReason.AlreadyExists,
        "configmaps " ++ cm.ObjectMeta.Name ++ " already exists"⟩, s)
    | none => (Except.ok cm, fun key => if key = (ns, cm.ObjectMeta.Name) then some cm else s key)
  Get := fun ns name s =>
    match s (ns, name) with
    | some cm => (Except.ok cm, s)
    | none =>
      (Except.error ⟨StatusReason.NotFound, "configmaps " ++ name ++ " not found"⟩, s)
  Update := fun ns cm s =>
    match s (ns, cm.ObjectMeta.Name) with
    | some _ => (Except.ok cm, fun key => if key = (ns, cm.ObjectMeta.Name) then some cm else s key)
    | none =>
      (Except.error ⟨StatusReason.NotFound,
        "configmaps " ++ cm.ObjectMeta.Name ++ " not found"⟩, s)
  Delete := fun ns name s =>
    match s (ns, name) with
    | some _ => (none, fun key => if key = (ns, name) then none else s key)
    | none =>
      (some ⟨StatusReason.NotFound, "configmaps " ++ name ++ " not found"⟩, s)

/-- A client of the in-memory store whose calls may fail without effect, as on a lost
connection: the state is the contents of the store with the number of calls made so
far, and `fails n` tells whether call number `n` fails. -/
def faultyClient (fails : Nat → Bool) : CoreClient (Store × Nat) where
  Create := fun ns cm s =>
    if fails s.2 then (Except.error ⟨StatusReason.Other, "connection refused"⟩, (s.1, s.2 + 1))
    else ((memClient.Create ns cm s.1).1, ((memClient.Create ns cm s.1).2, s.2 + 1))
  Get := fun ns name s =>
    if fails s.2 then (Except.error ⟨StatusReason.Other, "connection refused"⟩, (s.1, s.2 + 1))
    else ((memClient.Get ns name s.1).1, ((memClient.Get ns name s.1).2, s.2 + 1))
  Update := fun ns cm s =>
    if fails s.2 then (Except.error ⟨StatusReason.Other, "connection refused"⟩, (s.1, s.2 + 1))
    else ((memClient.Update ns cm s.1).1, ((memClient.Update ns cm s.1).2, s.2 + 1))
  Delete := fun ns name s =>
    if fails s.2 then (some ⟨StatusReason.Other, "connection refused"⟩, (s.1, s.2 + 1))
    else ((memClient.Delete ns name s.1).1, ((memClient.Delete ns name s.1).2, s.2 + 1))

/-! ## Notions used to state the properties of `IsDoneApplying` -/

/-- The receiver as `IsDoneApplying` holds it once `findParentAndAssociatedRes` has
returned. -/
def receiverAfterFind {R : Type} (E : Env R) (c : ConvergedResource R) : ConvergedResource R :=
  { c with associatedRs := (findParentAndAssociatedRes E c).receiverRs }

/-- The classification `IsDoneApplying` obtains for `res` (the primary or an associated
resource): the state `c.isResourceDoneApplying(res)` returns there, `none` when no
classifier accepts `res`. -/
def classifiedAs {R : Type} (E : Env R) (c : ConvergedResource R) (res : R) :
    Option DoneApplyState :=
  (isResourceDoneApplying E (receiverAfterFind E c) res).1

/-- The state an associated resource counts with: its classification, or done and
successful when it has none. -/
def stateOrSuccess : Option DoneApplyState → DoneApplyState
  | some s => s
  | none => { Done := true, Successful := true }

/-- The progress lines of the associated resources `rs`, in their order. -/
def childDescMsgs {R : Type} (E : Env R) (c : ConvergedResource R) : List R → List String
  | [] => []
  | res :: rest =>
    buildChildDescMsg E res (stateOrSuccess (classifiedAs E c res)) ++ childDescMsgs E c rest

/-- The progress line of a primary classified as `st` and not done. -/
def parentDescMsgs {R : Type} (E : Env R) (c : ConvergedResource R) (st : DoneApplyState) :
    List String :=
  if !st.Successful && (findParentAndAssociatedRes E c).associatedRs.length > 0 then
    buildParentDescMsg E c.res st
  else []

/-! ## A small instance

Three kinds of resources, of which pods and cron jobs have a classifier, with
descriptions and keys of the form `kind/name`; the sort is an insertion sort. -/

/-- The kinds of the instance. -/
inductive SampleKind where
  | configMap
  | pod
  | cronJob
deriving DecidableEq, Repr

/-- The kind as it shows in descriptions and keys. -/
def SampleKind.text : SampleKind → String
  | configMap => "configmap"
  | pod => "pod"
  | cronJob => "cronjob"

/-- A resource of the instance: its kind and name, what its status says, and the value of
the opt-out annotation when it carries it. -/
structure SampleResource where
  kind : SampleKind
  name : String
  failed : Bool := false
  ready : Bool := false
  deleting : Bool := false
  optOut : Option String := none
deriving DecidableEq, Repr

/-- The resource methods of the instance. -/
def sampleOps : ResourceOps SampleResource where
  Description := fun r => r.kind.text ++ "/" ++ r.name
  Annotations := fun r key =>
    if key = disableAssociatedResourcesWaitingAnnKey then r.optOut else none
  UniqueResourceKey := fun r => r.kind.text ++ "/" ++ r.name

/-- The classifiers of the instance: anything being deleted is pending; a pod is failed,
ready or pending; a cron job is done at once. -/
def sampleFactories : Factories SampleResource where
  NewKappctrlK14sIoV1alpha1App := fun _ => none
  NewDeleting := fun r =>
    if r.deleting then some ⟨{ Done := false, Successful := false, Message := "Deleting" }⟩
    else none
  NewApiExtensionsVxCRD := fun _ => none
  NewCoreV1Pod := fun r =>
    match r.kind with
    | SampleKind.pod =>
      if r.failed then some ⟨{ Done := true, Successful := false, Message := "Phase is failed" }⟩
      else if r.ready then some ⟨{ Done := true, Successful := true }⟩
      else some ⟨{ Done := false, Successful := false, Message := "Pending" }⟩
    | _ => none
  NewCoreV1Service := fun _ => none
  NewAppsV1Deployment := fun _ _ => none
  NewAppsV1DaemonSet := fun _ => none
  NewBatchV1Job := fun _ => none
  NewBatchVxCronJob := fun r =>
    match r.kind with
    | SampleKind.cronJob => some ⟨{ Done := true, Successful := true }⟩
    | _ => none

/-- An insertion sort by description, descending, comparing the descriptions character
by character. -/
def sampleSort : SortSlice SampleResource sampleOps.Description where
  sort := List.insertionSort
    (fun a b => ¬ (sampleOps.Description a).toList < (sampleOps.Description b).toList)
  perm := List.perm_insertionSort _
  sorted := fun l => by
    have key : ∀ a b : SampleResource,
        ¬ (sampleOps.Description a).toList < (sampleOps.Description b).toList ↔
          sampleOps.Description b ≤ sampleOps.Description a := fun a b => by
      rw [← String.lt_iff_toList_lt, not_lt]
    haveI : IsTotal SampleResource
        (fun a b => ¬ (sampleOps.Description a).toList < (sampleOps.Description b).toList) :=
      ⟨fun a b => by rw [key, key]; exact le_total _ _⟩
    haveI : IsTrans SampleResource
        (fun a b => ¬ (sampleOps.Description a).toList < (sampleOps.Description b).toList) :=
      ⟨fun a b c hab hbc => by rw [key] at *; exact le_trans hbc hab⟩
    have h := List.sorted_insertionSort
      (fun a b : SampleResource =>
        ¬ (sampleOps.Description a).toList < (sampleOps.Description b).toList) l
    exact List.Pairwise.imp (fun hab => by rwa [String.lt_iff_toList_lt]) h

/-- The instance. -/
def sampleEnv : Env SampleResource where
  ops := sampleOps
  factories := sampleFactories
  sortSlice := sampleSort
  ui := { uiWaitChildPrefix := " L ", uiWaitMsgPrefix := " ^ ",
          stateLabel := fun st =>
            if st.Done then (if st.Successful then "ok" else "fail") else "ongoing" }

/-! ## An instance with API versions

Resources that carry an API version.  The identity key names kind and name, as the spec
has it (kind+namespace+name), not the version, while the Deployment classifier is the
one of `apps/v1`. -/

/-- A resource of the instance: API version, kind, name, and whether its rollout
failed. -/
structure VersionedResource where
  apiVersion : String
  kind : String
  name : String
  failed : Bool := false
deriving DecidableEq, Repr

/-- The resource methods of the instance. -/
def versionedOps : ResourceOps VersionedResource where
  Description := fun r => r.kind ++ "/" ++ r.name ++ " (" ++ r.apiVersion ++ ")"
  Annotations := fun _ _ => none
  UniqueResourceKey := fun r => r.kind ++ "/" ++ r.name

/-- The classifiers of the instance: only a Deployment of `apps/v1` has one. -/
def versionedFactories : Factories VersionedResource where
  NewKappctrlK14sIoV1alpha1App := fun _ => none
  NewDeleting := fun _ => none
  NewApiExtensionsVxCRD := fun _ => none
  NewCoreV1Pod := fun _ => none
  NewCoreV1Service := fun _ => none
  NewAppsV1Deployment := fun r _ =>
    if r.apiVersion = "apps/v1" ∧ r.kind = "Deployment" then
      if r.failed then
        some ⟨{ Done := true, Successful := false, Message := "Progress deadline exceeded" }⟩
      else some ⟨{ Done := true, Successful := true }⟩
    else none
  NewAppsV1DaemonSet := fun _ => none
  NewBatchV1Job := fun _ => none
  NewBatchVxCronJob := fun _ => none

/-- An insertion sort by description, descending, for any type of resources. -/
def insertionSortSlice {R : Type} (Description : R → String) : SortSlice R Description where
  sort := List.insertionSort (fun a b => ¬ (Description a).toList < (Description b).toList)
  perm := List.perm_insertionSort _
  sorted := fun l => by
    have key : ∀ a b : R,
        ¬ (Description a).toList < (Description b).toList ↔
          Description b ≤ Description a := fun a b => by
      rw [← String.lt_iff_toList_lt, not_lt]
    haveI : IsTotal R
        (fun a b => ¬ (Description a).toList < (Description b).toList) :=
      ⟨fun a b => by rw [key, key]; exact le_total _ _⟩
    haveI : IsTrans R
        (fun a b => ¬ (Description a).toList < (Description b).toList) :=
      ⟨fun a b c hab hbc => by rw [key] at *; exact le_trans hbc hab⟩
    have h := List.sorted_insertionSort
      (fun a b : R => ¬ (Description a).toList < (Description b).toList) l
    exact List.Pairwise.imp (fun hab => by rwa [String.lt_iff_toList_lt]) h

/-- The instance with API versions. -/
def versionedEnv : Env VersionedResource where
  ops := versionedOps
  factories := versionedFactories
  sortSlice := insertionSortSlice versionedOps.Description
  ui := { uiWaitChildPrefix := " L ", uiWaitMsgPrefix := " ^ ",
          stateLabel := fun st =>
            if st.Done then (if st.Successful then "ok" else "fail") else "ongoing" }

/-! ## Notions used to state the properties of the recorded app -/

/-- The labels of a config map as a lookup reads them: a nil map has no entry. -/
def labelsOf (cm : ConfigMap) : String → Option String :=
  fun k =>
    match cm.ObjectMeta.Labels with
    | some m => m k
    | none => none

/-- The label map `L` with the entries of `U` written over it. -/
def labelsWith (L : String → Option String) (U : MapEntries) : String → Option String :=
  fun k =>
    match MapEntries.get U k with
    | some v => some v
    | none => L k

/-- Some key of `U` is present in `L` with a different value. -/
def Conflicts (L : String → Option String) (U : MapEntries) : Prop :=
  ∃ k v prevVal, (k, v) ∈ U ∧ L k = some prevVal ∧ prevVal ≠ v

/-- The labels of a record as `CreateOrUpdate` first builds it: the is-app marker only. -/
def markerLabels {M : Type} (A : AppEnv M) : String → Option String :=
  fun k => if k = A.KappIsAppLabelKey then some A.kappIsAppLabelValue else none

/-- The data of a record created at the clock reading `unixNano`. -/
def initialData {M : Type} (A : AppEnv M) (unixNano : Int) : String → Option String :=
  A.AsData
    { LabelKey := kappAppLabelKey
      LabelValue := toString unixNano
      LastChangeName := ""
      LastChange := A.zeroChangeMeta }

/-- An instance of the declarations of package `app`: change metadata is a description,
and a record's data holds one entry per field. -/
def sampleAppEnv : AppEnv String where
  KappIsAppLabelKey := "kapp.k14s.io/is-app"
  kappIsAppLabelValue := ""
  zeroChangeMeta := ""
  AsData := fun appMeta k =>
    if k = "labelKey" then some appMeta.LabelKey
    else if k = "labelValue" then some appMeta.LabelValue
    else if k = "lastChangeName" then some appMeta.LastChangeName
    else if k = "lastChange" then some appMeta.LastChange
    else none
  NewAppMetaFromData := fun data =>
    match data "labelKey", data "labelValue", data "lastChangeName", data "lastChange" with
    | some labelKey, some labelValue, some lastChangeName, some lastChange =>
      Except.ok
        { LabelKey := labelKey, LabelValue := labelValue,
          LastChangeName := lastChangeName, LastChange := lastChange }
    | _, _, _, _ => Except.error "Parsing app metadata"

/-- The record of the app `app1` of namespace `ns`, without a last change. -/
def sampleRecord : ConfigMap :=
  { ObjectMeta :=
      { Name := "app1"
        Namespace := "ns"
        Labels := some (markerLabels sampleAppEnv) }
    Data := sampleAppEnv.AsData
      { LabelKey := kappAppLabelKey, LabelValue := "1", LastChangeName := "",
        LastChange := "" } }

/-- A store holding `sampleRecord` and nothing else. -/
def sampleStore : Store :=
  fun key => if key = ("ns", "app1") then some sampleRecord else none

/-- An instance of the change operations: a change of an app gets the app's name followed
by `-change-1` and is kept under that name; failing or succeeding it is noted in its
metadata. -/
def sampleChanges : ChangeOps String Store where
  Begin := fun ns app changeMeta s =>
    (Except.ok { name := app ++ "-change-1", nsName := ns, meta := changeMeta },
      fun key =>
        if key = (ns, app ++ "-change-1") then
          some { ObjectMeta := { Name := app ++ "-change-1", Namespace := ns }
                 Data := fun k => if k = "spec" then some changeMeta else none }
        else s key)
  List := fun _ _ s => (Except.ok [], s)
  DeleteAll := fun ns app s =>
    (none, fun key => if key = (ns, app ++ "-change-1") then none else s key)
  Fail := fun change s => ((none, { change with meta := change.meta ++ " (failed)" }), s)
  Succeed := fun change s => ((none, { change with meta := change.meta ++ " (succeeded)" }), s)
  Delete := fun change s =>
    (none, fun key => if key = (change.nsName, change.name) then none else s key)

/-- Change operations given on the contents of the store, run on the store with a call
count: they act on the contents and do not count as calls of the config-map client. -/
def ChangeOps.onCounted {M : Type} (ops : ChangeOps M Store) : ChangeOps M (Store × Nat) where
  Begin := fun ns app changeMeta s =>
    ((ops.Begin ns app changeMeta s.1).1, ((ops.Begin ns app changeMeta s.1).2, s.2))
  List := fun ns app s => ((ops.List ns app s.1).1, ((ops.List ns app s.1).2, s.2))
  DeleteAll := fun ns app s =>
    ((ops.DeleteAll ns app s.1).1, ((ops.DeleteAll ns app s.1).2, s.2))
  Fail := fun change s => ((ops.Fail change s.1).1, ((ops.Fail change s.1).2, s.2))
  Succeed := fun change s => ((ops.Succeed change s.1).1, ((ops.Succeed change s.1).2, s.2))
  Delete := fun change s => ((ops.Delete change s.1).1, ((ops.Delete change s.1).2, s.2))

/-- An instance of the labeled-app operations: the selector is the app's own label, and
the resources of an app are kept outside this store. -/
def sampleLabeled : LabeledAppOps String Store where
  Labels := fun appMeta k => if k = appMeta.LabelKey then some appMeta.LabelValue else none
  LabelSelector := fun app => Except.ok app.labelSelector
  Delete := fun _ s => (none, s)

/-! ## `IsDoneApplying`: auxiliary facts -/

theorem firstSpecific_snd {R : Type} (res : R) (fs : List (R → Option SpecificResource)) :
    (firstSpecific res fs).2 = none := by
  induction fs with
  | nil => rfl
  | cons f fs ih =>
    unfold firstSpecific
    cases f res with
    | none => simpa using ih
    | some s => rfl

theorem firstSpecific_none_iff {R : Type} (res : R) (fs : List (R → Option SpecificResource)) :
    (firstSpecific res fs).1 = none ↔ ∀ f ∈ fs, f res = none := by
  induction fs with
  | nil => simp [firstSpecific]
  | cons f fs ih =>
    unfold firstSpecific
    cases hf : f res with
    | none => simp [hf, ih]
    | some s => simp [hf]

theorem firstSpecific_first {R : Type} (res : R) :
    ∀ (fs : List (R → Option SpecificResource)) (i : Nat) (hi : i < fs.length)
      (s : SpecificResource), fs[i] res = some s →
      (∀ j (hj : j < i), fs[j] res = none) →
      firstSpecific res fs = (some s.IsDoneApplying, none) := by
  intro fs
  induction fs with
  | nil => intro i hi; simp at hi
  | cons f fs ih =>
    intro i hi s hs hbefore
    cases i with
    | zero =>
      simp only [List.getElem_cons_zero] at hs
      simp [firstSpecific, hs]
    | succ i =>
      have h0 : f res = none := by
        have := hbefore 0 (Nat.succ_pos i)
        simpa using this
      simp only [List.getElem_cons_succ] at hs
      have hi1 : i < fs.length := by simpa using hi
      have hrest := ih i hi1 s hs (fun j hj => by
        have := hbefore (j + 1) (Nat.succ_lt_succ hj)
        simpa using this)
      simp [firstSpecific, h0, hrest]

theorem isResourceDoneApplying_eq {R : Type} (E : Env R) (c : ConvergedResource R) (res : R) :
    isResourceDoneApplying E c res = ((isResourceDoneApplying E c res).1, none) := by
  have h := firstSpecific_snd res (specificResFactories E.factories c.associatedRs)
  unfold isResourceDoneApplying
  exact Prod.ext rfl h

theorem classifyAssociated_eq {R : Type} (E : Env R) (c : ConvergedResource R) (l : List R) :
    ∀ (states : List DoneApplyState) (msgs : List String),
      classifyAssociated E (receiverAfterFind E c) l states msgs =
        Sum.inr (states ++ l.map (fun r => stateOrSuccess (classifiedAs E c r)),
          msgs ++ childDescMsgs E c l) := by
  induction l with
  | nil => intro states msgs; simp [classifyAssociated, childDescMsgs]
  | cons r rest ih =>
    intro states msgs
    unfold classifyAssociated
    rw [isResourceDoneApplying_eq]
    simp only []
    rw [ih]
    simp [childDescMsgs, classifiedAs, stateOrSuccess]

/-- Unfolding of `IsDoneApplying` by cases on the primary's classification and its opt-out
annotation. -/
theorem IsDoneApplying_eq {R : Type} (E : Env R) (c : ConvergedResource R) :
    IsDoneApplying E c =
      match classifiedAs E c c.res with
      | some st =>
        if st.Done then (st, [], none)
        else
          match E.ops.Annotations c.res disableAssociatedResourcesWaitingAnnKey with
          | some v =>
            if v != "" then
              ({ Done := true }, parentDescMsgs E c st,
                some (annotationErrorText (E.ops.Description c.res)))
            else (st, parentDescMsgs E c st, none)
          | none =>
            (st, parentDescMsgs E c st ++
              childDescMsgs E c (findParentAndAssociatedRes E c).associatedRs, none)
      | none =>
        match E.ops.Annotations c.res disableAssociatedResourcesWaitingAnnKey with
        | some v =>
          if v != "" then
            ({ Done := true }, [], some (annotationErrorText (E.ops.Description c.res)))
          else ({ Done := true, Successful := true }, [], none)
        | none =>
          (verdictOfAssociated
              ((findParentAndAssociatedRes E c).associatedRs.map
                (fun r => stateOrSuccess (classifiedAs E c r))),
            childDescMsgs E c (findParentAndAssociatedRes E c).associatedRs, none) := by
  have hrec : ({ c with associatedRs := (findParentAndAssociatedRes E c).receiverRs } :
      ConvergedResource R) = receiverAfterFind E c := rfl
  have hres : (findParentAndAssociatedRes E c).convergedRes = c.res := rfl
  have herr : (findParentAndAssociatedRes E c).err = none := rfl
  unfold IsDoneApplying
  simp only [hrec, hres, herr]
  rw [isResourceDoneApplying_eq]
  simp only [classifyAssociated_eq]
  change _ = match (isResourceDoneApplying E (receiverAfterFind E c) c.res).1 with
    | some st => _
    | none => _
  cases hst : (isResourceDoneApplying E (receiverAfterFind E c) c.res).1 with
  | none => simp only [List.nil_append]
  | some st =>
    by_cases hd : st.Done = true
    · simp [hd]
    · simp only [hd, List.nil_append]
      cases hann : E.ops.Annotations c.res disableAssociatedResourcesWaitingAnnKey with
      | none => simp [parentDescMsgs]
      | some v => simp [parentDescMsgs]

/-- A resource of the input with another key than the primary's is still there after the
sort and the removal. -/
theorem mem_associatedRs_of_key_ne {R : Type} (E : Env R) (c : ConvergedResource R) (r : R)
    (hr : r ∈ c.associatedRs)
    (hkey : E.ops.UniqueResourceKey r ≠ E.ops.UniqueResourceKey c.res) :
    r ∈ (findParentAndAssociatedRes E c).associatedRs := by
  unfold findParentAndAssociatedRes
  simp only []
  rw [List.mem_eraseP_of_neg]
  · exact (E.sortSlice.perm c.associatedRs).mem_iff.mpr hr
  · simpa using fun h => hkey h.symm

/-- What is left after the sort and the removal comes from the input. -/
theorem mem_of_mem_associatedRs {R : Type} (E : Env R) (c : ConvergedResource R) (r : R)
    (hr : r ∈ (findParentAndAssociatedRes E c).associatedRs) : r ∈ c.associatedRs := by
  unfold findParentAndAssociatedRes at hr
  simp only [] at hr
  exact (E.sortSlice.perm c.associatedRs).mem_iff.mp ((List.eraseP_sublist _).subset hr)

/-- The list left after the sort and the removal is in description-descending order. -/
theorem associatedRs_sorted {R : Type} (E : Env R) (c : ConvergedResource R) :
    (findParentAndAssociatedRes E c).associatedRs.Pairwise
      (fun a b => ¬ E.ops.Description a < E.ops.Description b) := by
  unfold findParentAndAssociatedRes
  simp only []
  exact List.Pairwise.sublist (List.eraseP_sublist _) (E.sortSlice.sorted c.associatedRs)

/-- In a list in descending order of `key`, the first element satisfying `p` has the
greatest key among those satisfying `p`. -/
theorem find?_greatest {α : Type} (key : α → String) (p : α → Bool) :
    ∀ (l : List α), l.Pairwise (fun a b => ¬ key a < key b) →
      ∀ t ∈ l, p t = true → ∃ s ∈ l, l.find? p = some s ∧ p s = true ∧
        ∀ u ∈ l, p u = true → ¬ key s < key u := by
  intro l
  induction l with
  | nil => intro _ t ht; simp at ht
  | cons a l ih =>
    intro hsorted t ht hpt
    rw [List.pairwise_cons] at hsorted
    by_cases hpa : p a = true
    · refine ⟨a, List.mem_cons_self _ _, by simp [List.find?, hpa], hpa, ?_⟩
      intro u hu _
      rcases List.mem_cons.mp hu with rfl | hu
      · exact lt_irrefl _
      · exact hsorted.1 u hu
    · have htl : t ∈ l := by
        rcases List.mem_cons.mp ht with rfl | h
        · exact absurd hpt hpa
        · exact h
      obtain ⟨s, hs, hfind, hps, hmax⟩ := ih hsorted.2 t htl hpt
      refine ⟨s, List.mem_cons_of_mem _ hs, ?_, hps, ?_⟩
      · simp only [Bool.not_eq_true] at hpa
        simp [List.find?, hpa, hfind]
      · intro u hu hpu
        rcases List.mem_cons.mp hu with rfl | hu
        · exact absurd hpu hpa
        · exact hmax u hu hpu

theorem verdictOfAssociated_of_find {states : List DoneApplyState} {st : DoneApplyState}
    (h : states.find? (fun state => state.TerminallyFailed) = some st) :
    verdictOfAssociated states = st := by
  simp [verdictOfAssociated, h]

theorem verdictOfAssociated_success_iff (states : List DoneApplyState) :
    verdictOfAssociated states = { Done := true, Successful := true } ↔
      ∀ st ∈ states, st.Done = true ∧ st.Successful = true := by
  unfold verdictOfAssociated
  cases hf : states.find? (fun state => state.TerminallyFailed) with
  | some st =>
    have hmem := List.mem_of_find?_eq_some hf
    have htf := List.find?_some hf
    simp only [DoneApplyState.TerminallyFailed, Bool.and_eq_true, Bool.not_eq_true'] at htf
    constructor
    · intro h
      simp only [] at h
      subst h
      simp at htf
    · intro h
      have := (h st hmem).2
      rw [htf.2] at this
      exact absurd this (by decide)
  | none =>
    cases hp : states.find? (fun state => !state.Done) with
    | some st =>
      have hmem := List.mem_of_find?_eq_some hp
      have hnd := List.find?_some hp
      simp only [Bool.not_eq_true'] at hnd
      constructor
      · intro h
        simp only [] at h
        subst h
        simp at hnd
      · intro h
        have := (h st hmem).1
        rw [hnd] at this
        exact absurd this (by decide)
    | none =>
      simp only [true_iff]
      intro st hst
      rw [List.find?_eq_none] at hf hp
      have h1 := hf st hst
      have h2 := hp st hst
      simp only [DoneApplyState.TerminallyFailed, Bool.and_eq_true, Bool.not_eq_true',
        not_and, Bool.not_eq_false] at h1 h2
      exact ⟨h2, h1 h2⟩

/-! ## `IsDoneApplying`: the properties -/

/-- C1 (fast path): when the classification of the primary resource is a state with
`Done = true`, `IsDoneApplying` returns exactly that state, a nil error and no messages,
whatever the associated resources are. -/
theorem fast_path_returns_primary_state {R : Type} (E : Env R) (c : ConvergedResource R)
    (st : DoneApplyState) (hst : classifiedAs E c c.res = some st) (hd : st.Done = true) :
    IsDoneApplying E c = (st, [], none) := by
  rw [IsDoneApplying_eq, hst]
  simp [hd]

/-- C1 at a ready pod whose associated resources are a failed and a pending pod. -/
theorem fast_path_returns_primary_state_witness :
    IsDoneApplying sampleEnv
        ⟨{ kind := SampleKind.pod, name := "web", ready := true },
          [{ kind := SampleKind.pod, name := "job", failed := true },
           { kind := SampleKind.pod, name := "db" }]⟩ =
      ({ Done := true, Successful := true }, [], none) :=
  fast_path_returns_primary_state sampleEnv _ _ (by decide) (by decide)

/-- C2, as stated, fails: the primary is a Deployment of `apps/v1beta1`, which no
classifier accepts, and the only associated resource is the terminally failed Deployment
of `apps/v1` of the same kind and name; it carries the primary's key, is removed, and the
result is success. -/
theorem fail_fast_precedence_counterexample :
    classifiedAs versionedEnv
        ⟨{ apiVersion := "apps/v1beta1", kind := "Deployment", name := "web" },
          [{ apiVersion := "apps/v1", kind := "Deployment", name := "web", failed := true }]⟩
        { apiVersion := "apps/v1beta1", kind := "Deployment", name := "web" } = none ∧
      versionedEnv.ops.Annotations
        { apiVersion := "apps/v1beta1", kind := "Deployment", name := "web" }
        disableAssociatedResourcesWaitingAnnKey = none ∧
      (∃ r ∈ [({ apiVersion := "apps/v1", kind := "Deployment", name := "web",
                 failed := true } : VersionedResource)],
        ∃ st, classifiedAs versionedEnv
            ⟨{ apiVersion := "apps/v1beta1", kind := "Deployment", name := "web" },
              [{ apiVersion := "apps/v1", kind := "Deployment", name := "web",
                 failed := true }]⟩ r = some st ∧
          st.TerminallyFailed = true) ∧
      IsDoneApplying versionedEnv
        ⟨{ apiVersion := "apps/v1beta1", kind := "Deployment", name := "web" },
          [{ apiVersion := "apps/v1", kind := "Deployment", name := "web", failed := true }]⟩ =
        ({ Done := true, Successful := true }, [], none) :=
  ⟨by decide, by decide,
    ⟨{ apiVersion := "apps/v1", kind := "Deployment", name := "web", failed := true },
      by decide,
      { Done := true, Successful := false, Message := "Progress deadline exceeded" },
      by decide, by decide⟩,
    by decide⟩

/-- C2, amended (fail-fast precedence): for a primary without classification and without
the opt-out annotation, and an associated list that still holds a resource classifying
as terminally failed once the resource with the primary's key has been removed,
`IsDoneApplying` returns a nil error and a state with `Done = true` and
`Successful = false` (so not a pending one); that state is the classification of the
first terminally failed resource of that list, whose description no terminally failed
resource of that list exceeds. -/
theorem fail_fast_precedence {R : Type} (E : Env R) (c : ConvergedResource R)
    (hprimary : classifiedAs E c c.res = none)
    (hann : E.ops.Annotations c.res disableAssociatedResourcesWaitingAnnKey = none)
    (hfail : ∃ r ∈ (findParentAndAssociatedRes E c).associatedRs,
        ∃ st, classifiedAs E c r = some st ∧ st.TerminallyFailed = true) :
    (IsDoneApplying E c).2.2 = none ∧
      (IsDoneApplying E c).1.Done = true ∧ (IsDoneApplying E c).1.Successful = false ∧
      ∃ s ∈ (findParentAndAssociatedRes E c).associatedRs,
        s ∈ c.associatedRs ∧ classifiedAs E c s = some (IsDoneApplying E c).1 ∧
        (∀ t ∈ (findParentAndAssociatedRes E c).associatedRs,
          (∃ st, classifiedAs E c t = some st ∧ st.TerminallyFailed = true) →
          ¬ E.ops.Description s < E.ops.Description t) ∧
        ∃ before after,
          (findParentAndAssociatedRes E c).associatedRs = before ++ s :: after ∧
            ∀ t ∈ before, ∀ st, classifiedAs E c t = some st →
              st.TerminallyFailed = false := by
  obtain ⟨r, hrmem, st, hst, htf⟩ := hfail
  obtain ⟨s, hs, hfind, hps, hmax⟩ :=
    find?_greatest E.ops.Description
      (fun x => (stateOrSuccess (classifiedAs E c x)).TerminallyFailed)
      (findParentAndAssociatedRes E c).associatedRs (associatedRs_sorted E c) r hrmem
      (by simp [hst, stateOrSuccess, htf])
  have hverdict : verdictOfAssociated
      ((findParentAndAssociatedRes E c).associatedRs.map
        (fun x => stateOrSuccess (classifiedAs E c x))) =
      stateOrSuccess (classifiedAs E c s) := by
    apply verdictOfAssociated_of_find
    rw [List.find?_map]
    have : ((fun state : DoneApplyState => state.TerminallyFailed) ∘
        fun x => stateOrSuccess (classifiedAs E c x)) =
        fun x => (stateOrSuccess (classifiedAs E c x)).TerminallyFailed := rfl
    rw [this, hfind]
    rfl
  have hout : IsDoneApplying E c =
      (stateOrSuccess (classifiedAs E c s),
        childDescMsgs E c (findParentAndAssociatedRes E c).associatedRs, none) := by
    rw [IsDoneApplying_eq, hprimary]
    simp only [hann, hverdict]
  have hcls : classifiedAs E c s = some (stateOrSuccess (classifiedAs E c s)) := by
    cases h : classifiedAs E c s with
    | some x => rfl
    | none =>
      rw [h] at hps
      simp [stateOrSuccess, DoneApplyState.TerminallyFailed] at hps
  have hps2 := hps
  simp only [DoneApplyState.TerminallyFailed, Bool.and_eq_true, Bool.not_eq_true'] at hps2
  rw [hout]
  obtain ⟨_, before, after, hsplit, hnone⟩ := List.find?_eq_some.mp hfind
  refine ⟨rfl, hps2.1, hps2.2, s, hs, mem_of_mem_associatedRs E c s hs, hcls, ?_,
    before, after, hsplit, ?_⟩
  · intro t ht htf
    obtain ⟨st2, hst2, htf2⟩ := htf
    exact hmax t ht (by simp [hst2, stateOrSuccess, htf2])
  · intro t ht st2 hst2
    have := hnone t ht
    simpa [hst2, stateOrSuccess] using this

/-- C2, amended, at a config map with a pending pod and two failed pods, the failed ones
not first in the input. -/
theorem fail_fast_precedence_witness :
    (IsDoneApplying sampleEnv
        ⟨{ kind := SampleKind.configMap, name := "settings" },
          [{ kind := SampleKind.pod, name := "b" },
           { kind := SampleKind.pod, name := "a", failed := true },
           { kind := SampleKind.pod, name := "c", failed := true }]⟩).1.Successful = false :=
  (fail_fast_precedence sampleEnv
    ⟨{ kind := SampleKind.configMap, name := "settings" },
      [{ kind := SampleKind.pod, name := "b" },
       { kind := SampleKind.pod, name := "a", failed := true },
       { kind := SampleKind.pod, name := "c", failed := true }]⟩
    (by decide) (by decide)
    ⟨{ kind := SampleKind.pod, name := "a", failed := true },
      mem_associatedRs_of_key_ne sampleEnv _ _ (by decide) (by decide),
      { Done := true, Successful := false, Message := "Phase is failed" },
      by decide, by decide⟩).2.2.1

/-- C3 (a classified primary is authoritative): when the primary has a classification
and `IsDoneApplying` returns a nil error, the state it returns is that classification,
whatever the associated resources are. -/
theorem classified_primary_is_authoritative {R : Type} (E : Env R) (c : ConvergedResource R)
    (st : DoneApplyState) (hst : classifiedAs E c c.res = some st)
    (herr : (IsDoneApplying E c).2.2 = none) :
    (IsDoneApplying E c).1 = st := by
  rw [IsDoneApplying_eq, hst] at herr ⊢
  simp only [] at herr ⊢
  by_cases hd : st.Done = true
  · simp [hd]
  · simp only [hd] at herr ⊢
    cases hann : E.ops.Annotations c.res disableAssociatedResourcesWaitingAnnKey with
    | none => simp
    | some v =>
      simp only [hann] at herr ⊢
      by_cases hv : (v != "") = true
      · simp [hv] at herr
      · simp [hv]

/-- C3 at a pending pod with a failed and a pending associated pod. -/
theorem classified_primary_is_authoritative_witness :
    (IsDoneApplying sampleEnv
        ⟨{ kind := SampleKind.pod, name := "web" },
          [{ kind := SampleKind.pod, name := "job", failed := true },
           { kind := SampleKind.pod, name := "db" }]⟩).1 =
      { Done := false, Successful := false, Message := "Pending" } :=
  classified_primary_is_authoritative sampleEnv _ _ (by decide) (by decide)

/-- C4, as stated, fails: a primary classified as done that carries the opt-out
annotation with the value `true` gets a nil error. -/
theorem annotation_error_counterexample :
    sampleEnv.ops.Annotations
        { kind := SampleKind.pod, name := "web", ready := true, optOut := some "true" }
        disableAssociatedResourcesWaitingAnnKey = some "true" ∧
      (IsDoneApplying sampleEnv
        ⟨{ kind := SampleKind.pod, name := "web", ready := true, optOut := some "true" },
          [{ kind := SampleKind.pod, name := "db" }]⟩).2.2 = none := by
  decide

/-- C4, amended: for a primary that is not classified as done (without classification, or
classified with `Done = false`) and carries the opt-out annotation with a non-empty value,
`IsDoneApplying` returns the error "Expected annotation '<key>' on resource
'<description>' to have value ''", whose text holds the annotation key and the
description of the primary, whatever the associated resources are. -/
theorem annotation_error_when_not_done {R : Type} (E : Env R) (c : ConvergedResource R)
    (v : String)
    (hnd : ∀ st, classifiedAs E c c.res = some st → st.Done = false)
    (hann : E.ops.Annotations c.res disableAssociatedResourcesWaitingAnnKey = some v)
    (hv : v ≠ "") :
    (IsDoneApplying E c).2.2 = some (annotationErrorText (E.ops.Description c.res)) ∧
      annotationErrorText (E.ops.Description c.res) =
        "Expected annotation '" ++ "kapp.k14s.io/disable-associated-resources-wait" ++
          "' on resource '" ++ E.ops.Description c.res ++ "' to have value ''" := by
  refine ⟨?_, rfl⟩
  rw [IsDoneApplying_eq]
  cases hst : classifiedAs E c c.res with
  | none => simp [hann, hv]
  | some st => simp [hnd st hst, hann, hv]

/-- C4, amended, at a pending pod annotated with the value `true`. -/
theorem annotation_error_when_not_done_witness :
    (IsDoneApplying sampleEnv
        ⟨{ kind := SampleKind.pod, name := "web", optOut := some "true" },
          [{ kind := SampleKind.pod, name := "db", ready := true }]⟩).2.2 =
      some (annotationErrorText "pod/web") :=
  (annotation_error_when_not_done sampleEnv
    ⟨{ kind := SampleKind.pod, name := "web", optOut := some "true" },
      [{ kind := SampleKind.pod, name := "db", ready := true }]⟩ "true"
    (by decide) (by decide) (by decide)).1

/-- C5 (valid opt-out): for a primary that is not classified as done and carries the
opt-out annotation with the empty value, `IsDoneApplying` returns a nil error and the
classification of the primary, or `{Done: true, Successful: true}` when it has none; the
messages are at most the one line built from the primary's own message, and none comes
from an associated resource. -/
theorem valid_opt_out_short_circuits {R : Type} (E : Env R) (c : ConvergedResource R)
    (hnd : ∀ st, classifiedAs E c c.res = some st → st.Done = false)
    (hann : E.ops.Annotations c.res disableAssociatedResourcesWaitingAnnKey = some "") :
    (IsDoneApplying E c).2.2 = none ∧
      (IsDoneApplying E c).1 =
        (match classifiedAs E c c.res with
          | some st => st
          | none => { Done := true, Successful := true }) ∧
      (IsDoneApplying E c).2.1 =
        (match classifiedAs E c c.res with
          | some st =>
            if !st.Successful && (findParentAndAssociatedRes E c).associatedRs.length > 0 then
              buildParentDescMsg E c.res st
            else []
          | none => []) ∧
      (IsDoneApplying E c).2.1.length ≤ 1 := by
  cases hst : classifiedAs E c c.res with
  | none =>
    rw [IsDoneApplying_eq, hst]
    simp [hann]
  | some st =>
    have hlen : (parentDescMsgs E c st).length ≤ 1 := by
      unfold parentDescMsgs buildParentDescMsg
      split_ifs <;> simp
    have hout : IsDoneApplying E c = (st, parentDescMsgs E c st, none) := by
      rw [IsDoneApplying_eq, hst]
      simp [hnd st hst, hann]
    rw [hout]
    exact ⟨rfl, rfl, rfl, hlen⟩

/-- C5 at an unclassified config map carrying the annotation with the empty value, with a
failed pod among its associated resources. -/
theorem valid_opt_out_short_circuits_witness :
    (IsDoneApplying sampleEnv
        ⟨{ kind := SampleKind.configMap, name := "settings", optOut := some "" },
          [{ kind := SampleKind.pod, name := "job", failed := true }]⟩).1 =
      { Done := true, Successful := true } :=
  (valid_opt_out_short_circuits sampleEnv
    ⟨{ kind := SampleKind.configMap, name := "settings", optOut := some "" },
      [{ kind := SampleKind.pod, name := "job", failed := true }]⟩
    (by decide) (by decide)).2.1

/-- C6 (absent a parent policy, success means all children healthy): for a primary
without classification and without the opt-out annotation, `IsDoneApplying` returns a nil
error, and the state `{Done: true, Successful: true}` exactly when every resource left in
the associated list after the removal of the primary has no classification or one with
`Done` and `Successful`. -/
theorem unclassified_primary_success_iff {R : Type} (E : Env R) (c : ConvergedResource R)
    (hprimary : classifiedAs E c c.res = none)
    (hann : E.ops.Annotations c.res disableAssociatedResourcesWaitingAnnKey = none) :
    (IsDoneApplying E c).2.2 = none ∧
      ((IsDoneApplying E c).1 = { Done := true, Successful := true } ↔
        ∀ r ∈ (findParentAndAssociatedRes E c).associatedRs,
          classifiedAs E c r = none ∨
            ∃ st, classifiedAs E c r = some st ∧ st.Done = true ∧ st.Successful = true) := by
  rw [IsDoneApplying_eq, hprimary]
  simp only [hann, true_and]
  rw [verdictOfAssociated_success_iff]
  simp only [List.mem_map, forall_exists_index, and_imp, forall_apply_eq_imp_iff₂]
  constructor
  · intro h r hr
    cases hc : classifiedAs E c r with
    | none => exact Or.inl rfl
    | some st =>
      have := h r hr
      rw [hc] at this
      exact Or.inr ⟨st, rfl, this⟩
  · intro h r hr
    rcases h r hr with hnone | ⟨st, hst, hds⟩
    · rw [hnone]; exact ⟨rfl, rfl⟩
    · rw [hst]; exact hds

/-- C6 at a config map with a ready pod and another config map. -/
theorem unclassified_primary_success_iff_witness :
    (IsDoneApplying sampleEnv
        ⟨{ kind := SampleKind.configMap, name := "settings" },
          [{ kind := SampleKind.pod, name := "web", ready := true },
           { kind := SampleKind.configMap, name := "other" }]⟩).2.2 = none :=
  (unclassified_primary_success_iff sampleEnv
    ⟨{ kind := SampleKind.configMap, name := "settings" },
      [{ kind := SampleKind.pod, name := "web", ready := true },
       { kind := SampleKind.configMap, name := "other" }]⟩
    (by decide) (by decide)).1

/-- C7 (the only error is the annotation-validation failure): when `IsDoneApplying`
returns a non-nil error, the primary carries the opt-out annotation with a non-empty
value and the state returned with it is `{Done: true}` (so `Successful = false`); hence a
state that is not done always comes with a nil error. -/
theorem only_error_is_annotation_validation {R : Type} (E : Env R) (c : ConvergedResource R) :
    ((IsDoneApplying E c).2.2 ≠ none →
        (∃ v, E.ops.Annotations c.res disableAssociatedResourcesWaitingAnnKey = some v ∧
          v ≠ "") ∧
        (IsDoneApplying E c).1 = { Done := true } ∧
        (IsDoneApplying E c).1.Done = true ∧ (IsDoneApplying E c).1.Successful = false) ∧
      ((IsDoneApplying E c).1.Done = false → (IsDoneApplying E c).2.2 = none) := by
  have key : (IsDoneApplying E c).2.2 ≠ none →
      (∃ v, E.ops.Annotations c.res disableAssociatedResourcesWaitingAnnKey = some v ∧
        v ≠ "") ∧ (IsDoneApplying E c).1 = { Done := true } := by
    rw [IsDoneApplying_eq]
    cases hst : classifiedAs E c c.res with
    | none =>
      cases hann : E.ops.Annotations c.res disableAssociatedResourcesWaitingAnnKey with
      | none => simp
      | some v =>
        by_cases hv : v = ""
        · simp [hv]
        · simp [hv]
    | some st =>
      by_cases hd : st.Done = true
      · simp [hd]
      · cases hann : E.ops.Annotations c.res disableAssociatedResourcesWaitingAnnKey with
        | none => simp [hd]
        | some v =>
          by_cases hv : v = ""
          · simp [hd, hv]
          · simp [hd, hv]
  refine ⟨fun h => ⟨(key h).1, (key h).2, ?_, ?_⟩, fun hnd => ?_⟩
  · rw [(key h).2]
  · rw [(key h).2]
  · by_contra h
    have := (key h).2
    rw [this] at hnd
    exact absurd hnd (by decide)

/-- C7 at a pending pod annotated with the value `true`: the error comes with the state
`{Done: true}`. -/
theorem only_error_is_annotation_validation_witness :
    (IsDoneApplying sampleEnv
        ⟨{ kind := SampleKind.pod, name := "web", optOut := some "true" },
          [{ kind := SampleKind.pod, name := "db" }]⟩).1 = { Done := true } :=
  ((only_error_is_annotation_validation sampleEnv
    ⟨{ kind := SampleKind.pod, name := "web", optOut := some "true" },
      [{ kind := SampleKind.pod, name := "db" }]⟩).1 (by decide)).2.1

/-- C8 (priority-ordered dispatch): the factories are tried in the order kapp-controller
App, Deleting, CRD, Pod, Service, Deployment, DaemonSet, Job, CronJob;
`isResourceDoneApplying` returns, with a nil error, the state of the first factory that
accepts the resource, and no state exactly when none accepts it.  So a resource the App
factory accepts gets the App state even when the Deleting factory accepts it too, and a
resource the App factory rejects and the Deleting factory accepts gets the Deleting
state whatever the later factories say. -/
theorem dispatch_is_priority_ordered {R : Type} (E : Env R) (c : ConvergedResource R)
    (res : R) :
    specificResFactories E.factories c.associatedRs =
        [ E.factories.NewKappctrlK14sIoV1alpha1App, E.factories.NewDeleting,
          E.factories.NewApiExtensionsVxCRD, E.factories.NewCoreV1Pod,
          E.factories.NewCoreV1Service,
          fun r => E.factories.NewAppsV1Deployment r c.associatedRs,
          E.factories.NewAppsV1DaemonSet, E.factories.NewBatchV1Job,
          E.factories.NewBatchVxCronJob ] ∧
      (∀ (i : Nat) (hi : i < (specificResFactories E.factories c.associatedRs).length)
          (s : SpecificResource),
          (specificResFactories E.factories c.associatedRs)[i] res = some s →
          (∀ j (hj : j < i), (specificResFactories E.factories c.associatedRs)[j] res = none) →
          isResourceDoneApplying E c res = (some s.IsDoneApplying, none)) ∧
      ((isResourceDoneApplying E c res).1 = none ↔
        ∀ f ∈ specificResFactories E.factories c.associatedRs, f res = none) ∧
      (∀ s, E.factories.NewKappctrlK14sIoV1alpha1App res = some s →
        isResourceDoneApplying E c res = (some s.IsDoneApplying, none)) ∧
      (∀ d, E.factories.NewKappctrlK14sIoV1alpha1App res = none →
        E.factories.NewDeleting res = some d →
        isResourceDoneApplying E c res = (some d.IsDoneApplying, none)) := by
  refine ⟨rfl, ?_, ?_, ?_, ?_⟩
  · intro i hi s hs hbefore
    exact firstSpecific_first res _ i hi s hs hbefore
  · exact firstSpecific_none_iff res _
  · intro s hs
    simp [isResourceDoneApplying, specificResFactories, firstSpecific, hs]
  · intro d happ hd
    simp [isResourceDoneApplying, specificResFactories, firstSpecific, happ, hd]

/-- C8 at a ready pod that is being deleted: the Deleting state wins over the Pod one. -/
theorem dispatch_is_priority_ordered_witness :
    isResourceDoneApplying sampleEnv
        ⟨{ kind := SampleKind.configMap, name := "settings" }, []⟩
        { kind := SampleKind.pod, name := "web", ready := true, deleting := true } =
      (some { Done := false, Successful := false, Message := "Deleting" }, none) :=
  (dispatch_is_priority_ordered sampleEnv
    ⟨{ kind := SampleKind.configMap, name := "settings" }, []⟩
    { kind := SampleKind.pod, name := "web", ready := true, deleting := true }).2.2.2.2
    _ (by decide) (by decide)

/-! ## `mergeAppUpdates` and `CreateOrUpdate` -/

theorem MapEntries.get_cons (key val : String) (rest : MapEntries) (k : String) :
    MapEntries.get ((key, val) :: rest) k = if key = k then some val else MapEntries.get rest k := by
  unfold MapEntries.get
  by_cases h : key = k
  · simp [List.find?, h]
  · have hb : (key == k) = false := by simpa using h
    simp [List.find?, hb, h]

theorem MapEntries.get_eq_none {U : MapEntries} {k : String}
    (h : k ∉ U.map Prod.fst) : MapEntries.get U k = none := by
  induction U with
  | nil => rfl
  | cons kv rest ih =>
    obtain ⟨key, val⟩ := kv
    simp only [List.map_cons, List.mem_cons, not_or] at h
    rw [MapEntries.get_cons, if_neg (fun e => h.1 e.symm)]
    exact ih h.2

theorem MapEntries.get_of_mem {U : MapEntries} {k v : String}
    (hU : (U.map Prod.fst).Nodup) (h : (k, v) ∈ U) : MapEntries.get U k = some v := by
  induction U with
  | nil => simp at h
  | cons kv rest ih =>
    obtain ⟨key, val⟩ := kv
    simp only [List.map_cons, List.nodup_cons] at hU
    rw [MapEntries.get_cons]
    rcases List.mem_cons.mp h with heq | hmem
    · simp only [Prod.mk.injEq] at heq
      simp [heq.1, heq.2]
    · have hne : key ≠ k := by
        rintro rfl
        exact hU.1 (List.mem_map_of_mem Prod.fst hmem)
      rw [if_neg hne]
      exact ih hU.2 hmem

theorem MapEntries.mem_of_get {U : MapEntries} {k v : String}
    (h : MapEntries.get U k = some v) : (k, v) ∈ U := by
  induction U with
  | nil => simp [MapEntries.get] at h
  | cons kv rest ih =>
    obtain ⟨key, val⟩ := kv
    rw [MapEntries.get_cons] at h
    by_cases hk : key = k
    · rw [if_pos hk] at h
      simp only [Option.some.injEq] at h
      simp [hk, h]
    · rw [if_neg hk] at h
      exact List.mem_cons_of_mem _ (ih h)

/-- What `mergeAppUpdates` does to a config map with allocated labels `L`, for update
entries with distinct keys. -/
theorem mergeAppUpdates_spec :
    ∀ (U : MapEntries) (cm : ConfigMap) (L : String → Option String),
      cm.ObjectMeta.Labels = some L → (U.map Prod.fst).Nodup →
      (∃ e, (mergeAppUpdates cm U).2 = Completion.returned e) ∧
      ((∃ msg, (mergeAppUpdates cm U).2 = Completion.returned (some msg)) ↔
        ∃ k v prevVal, (k, v) ∈ U ∧ L k = some prevVal ∧ prevVal ≠ v) ∧
      ((mergeAppUpdates cm U).2 = Completion.returned none →
        mergeAppUpdates cm U =
          ({ cm with ObjectMeta := { cm.ObjectMeta with
              Labels := some (fun k =>
                match MapEntries.get U k with
                | some v => some v
                | none => L k) } }, Completion.returned none)) ∧
      (∀ k v, L k = some v →
        ∃ L1, (mergeAppUpdates cm U).1.ObjectMeta.Labels = some L1 ∧ L1 k = some v) := by
  intro U
  induction U with
  | nil =>
    intro cm L hL _
    refine ⟨⟨none, rfl⟩, ?_, ?_, ?_⟩
    · simp [mergeAppUpdates]
    · intro _
      simp only [mergeAppUpdates, MapEntries.get, List.find?, Option.map_none']
      rw [← hL]
    · intro k v hk
      exact ⟨L, hL, hk⟩
  | cons kv rest ih =>
    obtain ⟨key, val⟩ := kv
    intro cm L hL hU
    simp only [List.map_cons, List.nodup_cons] at hU
    by_cases hconf : ∃ prevVal, L key = some prevVal ∧ prevVal ≠ val
    · obtain ⟨prevVal, hprev, hne⟩ := hconf
      have hrun : mergeAppUpdates cm ((key, val) :: rest) =
          (cm, Completion.returned (some (labelErrorText key))) := by
        simp [mergeAppUpdates, hL, hprev, hne]
      rw [hrun]
      refine ⟨⟨_, rfl⟩, ?_, ?_, ?_⟩
      · exact ⟨fun _ => ⟨key, val, prevVal, List.mem_cons_self _ _, hprev, hne⟩,
          fun _ => ⟨_, rfl⟩⟩
      · intro h
        simp at h
      · intro k v hk
        exact ⟨L, hL, hk⟩
    · have hok : ∀ prevVal, L key = some prevVal → prevVal = val := by
        intro prevVal hprev
        by_contra hne
        exact hconf ⟨prevVal, hprev, hne⟩
      let L' : String → Option String := fun k => if k = key then some val else L k
      let cm' : ConfigMap :=
        { cm with ObjectMeta := { cm.ObjectMeta with Labels := some L' } }
      have hrun : mergeAppUpdates cm ((key, val) :: rest) = mergeAppUpdates cm' rest := by
        cases hprev : L key with
        | none => simp [mergeAppUpdates, hL, hprev, cm', L']
        | some prevVal =>
          have := hok prevVal hprev
          simp [mergeAppUpdates, hL, hprev, this, cm', L']
      have hL' : cm'.ObjectMeta.Labels = some L' := rfl
      obtain ⟨h1, h2, h3, h4⟩ := ih cm' L' hL' hU.2
      have hL'rest : ∀ k v, (k, v) ∈ rest → L' k = L k := by
        intro k v hmem
        have hne : k ≠ key := by
          rintro rfl
          exact hU.1 (List.mem_map_of_mem Prod.fst hmem)
        simp [L', hne]
      rw [hrun]
      refine ⟨h1, ?_, ?_, ?_⟩
      · rw [h2]
        constructor
        · rintro ⟨k, v, prevVal, hmem, hprev, hne⟩
          exact ⟨k, v, prevVal, List.mem_cons_of_mem _ hmem,
            by rw [← hL'rest k v hmem]; exact hprev, hne⟩
        · rintro ⟨k, v, prevVal, hmem, hprev, hne⟩
          rcases List.mem_cons.mp hmem with heq | hmem
          · simp only [Prod.mk.injEq] at heq
            rw [heq.1] at hprev
            exact absurd (hok prevVal hprev) (by rw [heq.2] at hne; exact hne)
          · exact ⟨k, v, prevVal, hmem, by rw [hL'rest k v hmem]; exact hprev, hne⟩
      · intro hret
        rw [h3 hret]
        have hfun : (fun k => match MapEntries.get rest k with
              | some v => some v
              | none => L' k) =
            (fun k => match MapEntries.get ((key, val) :: rest) k with
              | some v => some v
              | none => L k) := by
          funext k
          rw [MapEntries.get_cons]
          by_cases hk : key = k
          · subst hk
            rw [if_pos rfl, MapEntries.get_eq_none hU.1]
            simp [L']
          · rw [if_neg hk]
            cases MapEntries.get rest k with
            | some v => rfl
            | none =>
              have hk2 : ¬ k = key := fun e => hk e.symm
              simp [L', hk2]
        simp only [cm', hfun]
      · intro k v hk
        have : L' k = some v := by
          by_cases hkey : k = key
          · subst hkey
            simp [L', hok v hk]
          · simp [L', hkey, hk]
        exact h4 k v this


theorem mergeAppUpdates_ok (cm : ConfigMap) (L : String → Option String) (U : MapEntries)
    (hL : cm.ObjectMeta.Labels = some L) (hU : (U.map Prod.fst).Nodup)
    (hno : ¬ Conflicts L U) :
    mergeAppUpdates cm U =
      ({ cm with ObjectMeta := { cm.ObjectMeta with Labels := some (labelsWith L U) } },
        Completion.returned none) := by
  obtain ⟨⟨e, he⟩, hiff, hsucc, _⟩ := mergeAppUpdates_spec U cm L hL hU
  cases e with
  | some msg => exact absurd (hiff.mp ⟨msg, he⟩) hno
  | none => exact hsucc he

theorem mergeAppUpdates_conflict (cm : ConfigMap) (L : String → Option String)
    (U : MapEntries) (hL : cm.ObjectMeta.Labels = some L) (hU : (U.map Prod.fst).Nodup)
    (hconf : Conflicts L U) :
    ∃ cm1 msg, mergeAppUpdates cm U = (cm1, Completion.returned (some msg)) := by
  obtain ⟨_, hiff, _, _⟩ := mergeAppUpdates_spec U cm L hL hU
  obtain ⟨msg, hmsg⟩ := hiff.mpr hconf
  exact ⟨(mergeAppUpdates cm U).1, msg, Prod.ext rfl hmsg⟩

/-- Creation: `CreateOrUpdate` on a store without the record creates it with the marker and the
given labels. -/
theorem CreateOrUpdate_absent {M : Type} (A : AppEnv M) (a : RecordedApp M) (unixNano : Int)
    (U : MapEntries) (s : Store) (habsent : s (a.nsName, a.name) = none)
    (hU : (U.map Prod.fst).Nodup) (hno : ¬ Conflicts (markerLabels A) U) :
    CreateOrUpdate A memClient a unixNano U s =
      (Completion.returned none,
        fun key =>
          if key = (a.nsName, a.name) then
            some { ObjectMeta :=
                    { Name := a.name, Namespace := a.nsName,
                      Labels := some (labelsWith (markerLabels A) U) }
                   Data := initialData A unixNano }
          else s key) := by
  unfold CreateOrUpdate
  simp only []
  rw [mergeAppUpdates_ok _ (markerLabels A) U rfl hU hno]
  simp only [memClient, habsent]
  rfl

/-- Rejection: `CreateOrUpdate` on a store holding the record, with labels that conflict with the
marker or with the stored labels: an error, and the store as it was. -/
theorem CreateOrUpdate_conflict {M : Type} (A : AppEnv M) (a : RecordedApp M)
    (unixNano : Int) (U : MapEntries) (s : Store) (cm : ConfigMap)
    (L : String → Option String) (hpresent : s (a.nsName, a.name) = some cm)
    (hL : cm.ObjectMeta.Labels = some L) (hU : (U.map Prod.fst).Nodup)
    (hconf : Conflicts L U) :
    ∃ msg, CreateOrUpdate A memClient a unixNano U s = (Completion.returned (some msg), s) := by
  unfold CreateOrUpdate
  simp only []
  rw [show (fun k => if k = A.KappIsAppLabelKey then some A.kappIsAppLabelValue else none) =
    markerLabels A from rfl]
  by_cases hm : Conflicts (markerLabels A) U
  · obtain ⟨cm1, msg, hrun⟩ := mergeAppUpdates_conflict
      { ObjectMeta :=
          { Name := a.name, Namespace := a.nsName, Labels := some (markerLabels A) }
        Data := A.AsData
          { LabelKey := kappAppLabelKey
            LabelValue := toString unixNano
            LastChangeName := ""
            LastChange := A.zeroChangeMeta } }
      (markerLabels A) U rfl hU hm
    exact ⟨msg, by rw [hrun]⟩
  · rw [mergeAppUpdates_ok _ (markerLabels A) U rfl hU hm]
    obtain ⟨cm1, msg, hrun⟩ := mergeAppUpdates_conflict cm L U hL hU hconf
    refine ⟨msg, ?_⟩
    simp only [memClient, hpresent, hrun]
    simp

/-- Update: `CreateOrUpdate` on a store holding the record under its name, with labels that
conflict neither with the marker nor with the stored labels: the stored labels are
extended, the rest of the record stays. -/
theorem CreateOrUpdate_present {M : Type} (A : AppEnv M) (a : RecordedApp M)
    (unixNano : Int) (U : MapEntries) (s : Store) (cm : ConfigMap)
    (L : String → Option String) (hpresent : s (a.nsName, a.name) = some cm)
    (hname : cm.ObjectMeta.Name = a.name)
    (hL : cm.ObjectMeta.Labels = some L) (hU : (U.map Prod.fst).Nodup)
    (hm : ¬ Conflicts (markerLabels A) U) (hno : ¬ Conflicts L U) :
    CreateOrUpdate A memClient a unixNano U s =
      (Completion.returned none,
        fun key =>
          if key = (a.nsName, a.name) then
            some { cm with ObjectMeta := { cm.ObjectMeta with Labels := some (labelsWith L U) } }
          else s key) := by
  unfold CreateOrUpdate
  simp only []
  rw [mergeAppUpdates_ok _ (markerLabels A) U rfl hU hm]
  simp only [memClient, hpresent, mergeAppUpdates_ok cm L U hL hU hno, hname]
  simp

/-- Labels that do not conflict with the marker extended by `U1` do not conflict with
the marker, when `U1` does not either. -/
theorem not_conflicts_marker {M : Type} (A : AppEnv M) (U1 U2 : MapEntries)
    (h1 : ¬ Conflicts (markerLabels A) U1)
    (h2 : ¬ Conflicts (labelsWith (markerLabels A) U1) U2) :
    ¬ Conflicts (markerLabels A) U2 := by
  rintro ⟨k, v, w, hmem, hw, hne⟩
  apply h2
  refine ⟨k, v, w, hmem, ?_, hne⟩
  unfold labelsWith
  cases hget : MapEntries.get U1 k with
  | none => exact hw
  | some x =>
    by_cases hx : w = x
    · simp [hx]
    · exact absurd ⟨k, x, w, MapEntries.mem_of_get hget, hw, hx⟩ h1

/-- C9: on the in-memory store without the record, two `CreateOrUpdate` calls whose label
maps conflict neither with the marker label nor with each other both return nil and leave
a record whose labels are the marker label united with both maps (and whose data is the
one written at creation); a further call with a different value for a stored label key
returns an error and leaves the store as it was. -/
theorem create_or_update_twice_then_conflict {M : Type} (A : AppEnv M) (a : RecordedApp M)
    (s : Store) (t1 t2 t3 : Int) (U1 U2 U3 : MapEntries)
    (habsent : s (a.nsName, a.name) = none)
    (hU1 : (U1.map Prod.fst).Nodup) (hU2 : (U2.map Prod.fst).Nodup)
    (hU3 : (U3.map Prod.fst).Nodup)
    (h1 : ¬ Conflicts (markerLabels A) U1)
    (h2 : ¬ Conflicts (labelsWith (markerLabels A) U1) U2)
    (h3 : Conflicts (labelsWith (labelsWith (markerLabels A) U1) U2) U3) :
    (CreateOrUpdate A memClient a t1 U1 s).1 = Completion.returned none ∧
      (CreateOrUpdate A memClient a t2 U2 (CreateOrUpdate A memClient a t1 U1 s).2).1 =
        Completion.returned none ∧
      (∃ cm,
        (CreateOrUpdate A memClient a t2 U2 (CreateOrUpdate A memClient a t1 U1 s).2).2
            (a.nsName, a.name) = some cm ∧
          cm.ObjectMeta.Labels = some (labelsWith (labelsWith (markerLabels A) U1) U2) ∧
          cm.Data = initialData A t1) ∧
      (∃ msg,
        CreateOrUpdate A memClient a t3 U3
            (CreateOrUpdate A memClient a t2 U2 (CreateOrUpdate A memClient a t1 U1 s).2).2 =
          (Completion.returned (some msg),
            (CreateOrUpdate A memClient a t2 U2 (CreateOrUpdate A memClient a t1 U1 s).2).2)) := by
  have e1 := CreateOrUpdate_absent A a t1 U1 s habsent hU1 h1
  have hs1 : (CreateOrUpdate A memClient a t1 U1 s).2 (a.nsName, a.name) =
      some { ObjectMeta :=
              { Name := a.name, Namespace := a.nsName,
                Labels := some (labelsWith (markerLabels A) U1) }
             Data := initialData A t1 } := by
    rw [e1]
    simp
  have e2 := CreateOrUpdate_present A a t2 U2 _ _ _ hs1 rfl rfl hU2
    (not_conflicts_marker A U1 U2 h1 h2) h2
  have hs2 : (CreateOrUpdate A memClient a t2 U2 (CreateOrUpdate A memClient a t1 U1 s).2).2
      (a.nsName, a.name) =
      some { ObjectMeta :=
              { Name := a.name, Namespace := a.nsName,
                Labels := some (labelsWith (labelsWith (markerLabels A) U1) U2) }
             Data := initialData A t1 } := by
    rw [e2]
    simp
  refine ⟨by rw [e1], by rw [e2], ⟨_, hs2, rfl, rfl⟩, ?_⟩
  exact CreateOrUpdate_conflict A a t3 U3 _ _ _ hs2 rfl hU3 h3

/-- C9 at the app `app1` of namespace `ns`, labelled first `team=a`, then `tier=web`, then
`team=b`. -/
theorem create_or_update_twice_then_conflict_witness :
    ∃ msg,
      CreateOrUpdate sampleAppEnv memClient { name := "app1", nsName := "ns" } 3
          [("team", "b")]
          (CreateOrUpdate sampleAppEnv memClient { name := "app1", nsName := "ns" } 2
            [("tier", "web")]
            (CreateOrUpdate sampleAppEnv memClient { name := "app1", nsName := "ns" } 1
              [("team", "a")] (fun _ => none)).2).2 =
        (Completion.returned (some msg),
          (CreateOrUpdate sampleAppEnv memClient { name := "app1", nsName := "ns" } 2
            [("tier", "web")]
            (CreateOrUpdate sampleAppEnv memClient { name := "app1", nsName := "ns" } 1
              [("team", "a")] (fun _ => none)).2).2) :=
  (create_or_update_twice_then_conflict sampleAppEnv { name := "app1", nsName := "ns" }
    (fun _ => none) 1 2 3 [("team", "a")] [("tier", "web")] [("team", "b")]
    rfl (by decide) (by decide) (by decide)
    (by
      rintro ⟨k, v, w, hmem, hw, hne⟩
      simp only [List.mem_singleton, Prod.mk.injEq] at hmem
      obtain ⟨rfl, rfl⟩ := hmem
      simp [markerLabels, sampleAppEnv] at hw)
    (by
      rintro ⟨k, v, w, hmem, hw, hne⟩
      simp only [List.mem_singleton, Prod.mk.injEq] at hmem
      obtain ⟨rfl, rfl⟩ := hmem
      simp [labelsWith, MapEntries.get, markerLabels, sampleAppEnv] at hw)
    ⟨"team", "b", "a", by simp, by simp [labelsWith, MapEntries.get], by decide⟩).2.2.2

/-- A label map without storage rejects the first write. -/
theorem mergeAppUpdates_nil_labels (cm : ConfigMap) (kv : String × String)
    (rest : MapEntries) (hnil : cm.ObjectMeta.Labels = none) :
    mergeAppUpdates cm (kv :: rest) =
      (cm, Completion.panicked "assignment to entry in nil map") := by
  obtain ⟨key, val⟩ := kv
  simp [mergeAppUpdates, hnil]

/-- C10 (labels are immutable per key): for every record label map (read as Go reads it,
a nil map having no entry) and every update map `U`, `mergeAppUpdates` returns an error
exactly when some key of `U` is present in the record's labels with a different value;
when it returns nil the resulting labels are the record's labels united with `U`; in every
case each key the record had keeps its value; and on a record whose labels are not nil
the method returns. -/
theorem labels_are_immutable_per_key (cm : ConfigMap) (U : MapEntries)
    (hU : (U.map Prod.fst).Nodup) :
    ((∃ msg, (mergeAppUpdates cm U).2 = Completion.returned (some msg)) ↔
        ∃ k v prevVal, (k, v) ∈ U ∧ labelsOf cm k = some prevVal ∧ prevVal ≠ v) ∧
      ((mergeAppUpdates cm U).2 = Completion.returned none →
        ∀ k, labelsOf (mergeAppUpdates cm U).1 k =
          (match MapEntries.get U k with
            | some v => some v
            | none => labelsOf cm k)) ∧
      (∀ k v, labelsOf cm k = some v → labelsOf (mergeAppUpdates cm U).1 k = some v) ∧
      (cm.ObjectMeta.Labels ≠ none → ∃ e, (mergeAppUpdates cm U).2 = Completion.returned e) := by
  cases hL : cm.ObjectMeta.Labels with
  | some L =>
    have hof : labelsOf cm = L := by
      funext k
      simp [labelsOf, hL]
    obtain ⟨hret, hiff, hsucc, hkeep⟩ := mergeAppUpdates_spec U cm L hL hU
    rw [hof]
    refine ⟨hiff, ?_, ?_, fun _ => hret⟩
    · intro h k
      rw [hsucc h]
      rfl
    · intro k v hk
      obtain ⟨L1, hL1, hv⟩ := hkeep k v hk
      simp [labelsOf, hL1, hv]
  | none =>
    have hof : ∀ k, labelsOf cm k = none := by
      intro k
      simp [labelsOf, hL]
    cases U with
    | nil =>
      refine ⟨?_, ?_, ?_, fun h => absurd rfl h⟩
      · simp [mergeAppUpdates]
      · intro _ k
        simp [mergeAppUpdates, MapEntries.get]
      · intro k v hk
        simpa [mergeAppUpdates] using hk
    | cons kv rest =>
      rw [mergeAppUpdates_nil_labels cm kv rest hL]
      refine ⟨?_, ?_, ?_, fun h => absurd rfl h⟩
      · constructor
        · rintro ⟨msg, hmsg⟩
          simp at hmsg
        · rintro ⟨k, v, prevVal, _, hprev, _⟩
          rw [hof k] at hprev
          simp at hprev
      · intro h
        simp at h
      · intro k v hk
        exact hk

/-- C10 at a record labelled `team=a`, updated with `tier=web` and `team=b`: `team`
keeps the value `a`. -/
theorem labels_are_immutable_per_key_witness :
    labelsOf
        (mergeAppUpdates
          { ObjectMeta := { Name := "app1",
                            Labels := some (fun k => if k = "team" then some "a" else none) } }
          [("tier", "web"), ("team", "b")]).1 "team" = some "a" :=
  (labels_are_immutable_per_key
    { ObjectMeta := { Name := "app1",
                      Labels := some (fun k => if k = "team" then some "a" else none) } }
    [("tier", "web"), ("team", "b")] (by decide)).2.2.1 "team" "a" (by simp [labelsOf])

/-! ## The normalised associated list -/

/-- Two rearrangements of resources with pairwise distinct descriptions that are both in
description-descending order are the same list. -/
theorem sorted_perm_unique {R : Type} (Description : R → String) (l1 l2 : List R)
    (hperm : l1.Perm l2) (hdistinct : (l1.map Description).Nodup)
    (h1 : l1.Pairwise (fun a b => ¬ Description a < Description b))
    (h2 : l2.Pairwise (fun a b => ¬ Description a < Description b)) : l1 = l2 := by
  have hd1 : l1.Pairwise (fun a b => Description a ≠ Description b) :=
    (List.pairwise_map).mp hdistinct
  have hd2 : l2.Pairwise (fun a b => Description a ≠ Description b) := by
    have : (l2.map Description).Nodup := (hperm.map Description).nodup_iff.mp hdistinct
    exact (List.pairwise_map).mp this
  have s1 : l1.Pairwise (fun a b => Description b < Description a) :=
    (h1.and hd1).imp (fun h => lt_of_le_of_ne (not_lt.mp h.1) (Ne.symm h.2))
  have s2 : l2.Pairwise (fun a b => Description b < Description a) :=
    (h2.and hd2).imp (fun h => lt_of_le_of_ne (not_lt.mp h.1) (Ne.symm h.2))
  exact hperm.eq_of_sorted (fun a b _ _ hab hba => absurd hab (lt_asymm hba)) s1 s2

/-- The sort of `findParentAndAssociatedRes` does not depend on the order of an input
with pairwise distinct descriptions. -/
theorem sort_eq_of_perm {R : Type} (E : Env R) (l1 l2 : List R) (hperm : l1.Perm l2)
    (hdistinct : (l1.map E.ops.Description).Nodup) :
    E.sortSlice.sort l1 = E.sortSlice.sort l2 := by
  apply sorted_perm_unique E.ops.Description
  · exact ((E.sortSlice.perm l1).trans hperm).trans (E.sortSlice.perm l2).symm
  · exact ((E.sortSlice.perm l1).map E.ops.Description).nodup_iff.mpr hdistinct
  · exact E.sortSlice.sorted l1
  · exact E.sortSlice.sorted l2

theorem filter_not_eraseP {α : Type} (p : α → Bool) (l : List α) :
    (l.eraseP p).filter (fun x => !p x) = l.filter (fun x => !p x) := by
  induction l with
  | nil => rfl
  | cons a l ih =>
    by_cases hp : p a = true
    · simp [List.eraseP_cons, hp]
    · simp only [Bool.not_eq_true] at hp
      simp [List.eraseP_cons, hp, ih]

theorem length_filter_eraseP {α : Type} (p : α → Bool) (l : List α) :
    ((l.eraseP p).filter p).length = (l.filter p).length - 1 := by
  induction l with
  | nil => rfl
  | cons a l ih =>
    by_cases hp : p a = true
    · simp [List.eraseP_cons, hp]
    · simp only [Bool.not_eq_true] at hp
      simp [List.eraseP_cons, hp, ih]

theorem findParentAndAssociatedRes_congr {R : Type} (E : Env R) (p : R) (l1 l2 : List R)
    (hsort : E.sortSlice.sort l1 = E.sortSlice.sort l2) :
    findParentAndAssociatedRes E ⟨p, l1⟩ = findParentAndAssociatedRes E ⟨p, l2⟩ := by
  unfold findParentAndAssociatedRes
  simp only [hsort]

/-- The receiver's list after `findParentAndAssociatedRes`, when some associated resource
has the primary's key: one longer than the list returned. -/
theorem receiverRs_length_of_parent {R : Type} (E : Env R) (c : ConvergedResource R) (r : R)
    (hr : r ∈ c.associatedRs)
    (hkey : E.ops.UniqueResourceKey c.res = E.ops.UniqueResourceKey r) :
    (findParentAndAssociatedRes E c).receiverRs.length =
      (findParentAndAssociatedRes E c).associatedRs.length + 1 := by
  have hmem : r ∈ E.sortSlice.sort c.associatedRs :=
    (E.sortSlice.perm c.associatedRs).mem_iff.mpr hr
  have hany : (E.sortSlice.sort c.associatedRs).any
      (fun res => E.ops.UniqueResourceKey c.res == E.ops.UniqueResourceKey res) = true := by
    rw [List.any_eq_true]
    exact ⟨r, hmem, by simpa using hkey⟩
  have hpos : 0 < (E.sortSlice.sort c.associatedRs).length := List.length_pos_of_mem hmem
  unfold findParentAndAssociatedRes
  simp only [hany, if_true, List.length_append, List.length_drop]
  omega

/-- The receiver's list after `findParentAndAssociatedRes`, when no associated resource
has the primary's key: the list returned. -/
theorem receiverRs_eq_of_no_parent {R : Type} (E : Env R) (c : ConvergedResource R)
    (hno : ∀ r ∈ c.associatedRs,
      E.ops.UniqueResourceKey c.res ≠ E.ops.UniqueResourceKey r) :
    (findParentAndAssociatedRes E c).receiverRs =
      (findParentAndAssociatedRes E c).associatedRs := by
  have hall : ∀ r ∈ E.sortSlice.sort c.associatedRs,
      ¬ (E.ops.UniqueResourceKey c.res == E.ops.UniqueResourceKey r) = true := by
    intro r hr
    have := hno r ((E.sortSlice.perm c.associatedRs).mem_iff.mp hr)
    simpa using this
  have hany : (E.sortSlice.sort c.associatedRs).any
      (fun res => E.ops.UniqueResourceKey c.res == E.ops.UniqueResourceKey res) = false := by
    rw [List.any_eq_false]
    exact hall
  unfold findParentAndAssociatedRes
  simp only [hany]
  rw [List.eraseP_of_forall_not hall]
  simp

/-- C16, as stated, fails: with the primary twice in the associated list, the list that is
classified still holds a resource with the primary's key. -/
theorem normalised_list_counterexample :
    ∃ r ∈ (findParentAndAssociatedRes sampleEnv
        ⟨{ kind := SampleKind.configMap, name := "settings" },
          [{ kind := SampleKind.configMap, name := "settings" },
           { kind := SampleKind.configMap, name := "settings" }]⟩).associatedRs,
      sampleEnv.ops.UniqueResourceKey r =
        sampleEnv.ops.UniqueResourceKey { kind := SampleKind.configMap, name := "settings" } :=
  ⟨{ kind := SampleKind.configMap, name := "settings" }, by decide, rfl⟩

/-- C16, amended: the list `IsDoneApplying` classifies and reports on is the outcome of
the sort (a rearrangement of the input in description-descending order) from which the
first resource with the primary's key is removed, the others staying in their order.  So
it is in description-descending order; its resources with another key than the primary's
are exactly those of the input; of the input's resources with the primary's key it lacks
one, and holds none when the input holds at most one. -/
theorem normalised_list_removes_first_parent {R : Type} (E : Env R)
    (c : ConvergedResource R) :
    (E.sortSlice.sort c.associatedRs).Perm c.associatedRs ∧
      (E.sortSlice.sort c.associatedRs).Pairwise
        (fun a b => ¬ E.ops.Description a < E.ops.Description b) ∧
      (((∀ r ∈ E.sortSlice.sort c.associatedRs,
            E.ops.UniqueResourceKey r ≠ E.ops.UniqueResourceKey c.res) ∧
          (findParentAndAssociatedRes E c).associatedRs = E.sortSlice.sort c.associatedRs) ∨
        ∃ before parent after,
          E.sortSlice.sort c.associatedRs = before ++ parent :: after ∧
            E.ops.UniqueResourceKey parent = E.ops.UniqueResourceKey c.res ∧
            (∀ r ∈ before, E.ops.UniqueResourceKey r ≠ E.ops.UniqueResourceKey c.res) ∧
            (findParentAndAssociatedRes E c).associatedRs = before ++ after) ∧
      (findParentAndAssociatedRes E c).associatedRs.Pairwise
        (fun a b => ¬ E.ops.Description a < E.ops.Description b) ∧
      (((findParentAndAssociatedRes E c).associatedRs.filter
          (fun r => !(E.ops.UniqueResourceKey c.res == E.ops.UniqueResourceKey r))).Perm
        (c.associatedRs.filter
          (fun r => !(E.ops.UniqueResourceKey c.res == E.ops.UniqueResourceKey r)))) ∧
      ((findParentAndAssociatedRes E c).associatedRs.filter
          (fun r => E.ops.UniqueResourceKey c.res == E.ops.UniqueResourceKey r)).length =
        (c.associatedRs.filter
          (fun r => E.ops.UniqueResourceKey c.res == E.ops.UniqueResourceKey r)).length - 1 ∧
      ((c.associatedRs.filter
          (fun r => E.ops.UniqueResourceKey c.res == E.ops.UniqueResourceKey r)).length ≤ 1 →
        ∀ r ∈ (findParentAndAssociatedRes E c).associatedRs,
          E.ops.UniqueResourceKey r ≠ E.ops.UniqueResourceKey c.res) := by
  have hlen : ((findParentAndAssociatedRes E c).associatedRs.filter
      (fun r => E.ops.UniqueResourceKey c.res == E.ops.UniqueResourceKey r)).length =
      (c.associatedRs.filter
        (fun r => E.ops.UniqueResourceKey c.res == E.ops.UniqueResourceKey r)).length - 1 := by
    unfold findParentAndAssociatedRes
    simp only []
    rw [length_filter_eraseP]
    rw [((E.sortSlice.perm c.associatedRs).filter _).length_eq]
  have hfirst : ((∀ r ∈ E.sortSlice.sort c.associatedRs,
        E.ops.UniqueResourceKey r ≠ E.ops.UniqueResourceKey c.res) ∧
      (findParentAndAssociatedRes E c).associatedRs = E.sortSlice.sort c.associatedRs) ∨
      ∃ before parent after,
        E.sortSlice.sort c.associatedRs = before ++ parent :: after ∧
          E.ops.UniqueResourceKey parent = E.ops.UniqueResourceKey c.res ∧
          (∀ r ∈ before, E.ops.UniqueResourceKey r ≠ E.ops.UniqueResourceKey c.res) ∧
          (findParentAndAssociatedRes E c).associatedRs = before ++ after := by
    by_cases hex : ∃ r ∈ E.sortSlice.sort c.associatedRs,
        (E.ops.UniqueResourceKey c.res == E.ops.UniqueResourceKey r) = true
    · right
      obtain ⟨r, hr, hp⟩ := hex
      obtain ⟨parent, before, after, hbefore, hparent, hsplit, herase⟩ :=
        List.exists_of_eraseP
          (p := fun res => E.ops.UniqueResourceKey c.res == E.ops.UniqueResourceKey res) hr hp
      refine ⟨before, parent, after, hsplit, ?_, ?_, ?_⟩
      · have : E.ops.UniqueResourceKey c.res = E.ops.UniqueResourceKey parent := by
          simpa using hparent
        exact this.symm
      · intro x hx hkey
        exact hbefore x hx (by simpa using hkey.symm)
      · unfold findParentAndAssociatedRes
        simp only []
        exact herase
    · left
      have hall : ∀ r ∈ E.sortSlice.sort c.associatedRs,
          ¬ (E.ops.UniqueResourceKey c.res == E.ops.UniqueResourceKey r) = true :=
        fun r hr hp => hex ⟨r, hr, hp⟩
      refine ⟨?_, ?_⟩
      · intro r hr hkey
        exact hall r hr (by simpa using hkey.symm)
      · unfold findParentAndAssociatedRes
        simp only []
        exact List.eraseP_of_forall_not hall
  refine ⟨E.sortSlice.perm c.associatedRs, E.sortSlice.sorted c.associatedRs, hfirst,
    associatedRs_sorted E c, ?_, hlen, ?_⟩
  · unfold findParentAndAssociatedRes
    simp only []
    rw [filter_not_eraseP]
    exact (E.sortSlice.perm c.associatedRs).filter _
  · intro hone r hr hkey
    have hmem : r ∈ (findParentAndAssociatedRes E c).associatedRs.filter
        (fun r => E.ops.UniqueResourceKey c.res == E.ops.UniqueResourceKey r) := by
      rw [List.mem_filter]
      exact ⟨hr, by simpa using hkey.symm⟩
    have hpos := List.length_pos_of_mem hmem
    omega

/-- C16, amended, at a config map that is itself among its associated resources: the
list classified is in descending order. -/
theorem normalised_list_removes_first_parent_witness :
    (findParentAndAssociatedRes sampleEnv
        ⟨{ kind := SampleKind.configMap, name := "settings" },
          [{ kind := SampleKind.pod, name := "a" },
           { kind := SampleKind.configMap, name := "settings" },
           { kind := SampleKind.pod, name := "b" }]⟩).associatedRs.Pairwise
      (fun a b => ¬ sampleEnv.ops.Description a < sampleEnv.ops.Description b) :=
  (normalised_list_removes_first_parent sampleEnv
    ⟨{ kind := SampleKind.configMap, name := "settings" },
      [{ kind := SampleKind.pod, name := "a" },
       { kind := SampleKind.configMap, name := "settings" },
       { kind := SampleKind.pod, name := "b" }]⟩).2.2.2.1

/-- C19 (order independence): for two associated lists that are rearrangements of each
other and whose resources have pairwise distinct descriptions, `IsDoneApplying` returns
the same state, the same messages in the same order and the same error. -/
theorem order_independence {R : Type} (E : Env R) (p : R) (l1 l2 : List R)
    (hperm : l1.Perm l2) (hdistinct : (l1.map E.ops.Description).Nodup) :
    IsDoneApplying E ⟨p, l1⟩ = IsDoneApplying E ⟨p, l2⟩ := by
  have hf := findParentAndAssociatedRes_congr E p l1 l2 (sort_eq_of_perm E l1 l2 hperm hdistinct)
  unfold IsDoneApplying
  rw [hf]

/-- C19 at a config map with three pods given in two orders. -/
theorem order_independence_witness :
    IsDoneApplying sampleEnv
        ⟨{ kind := SampleKind.configMap, name := "settings" },
          [{ kind := SampleKind.pod, name := "a" },
           { kind := SampleKind.pod, name := "b", failed := true },
           { kind := SampleKind.pod, name := "c", ready := true }]⟩ =
      IsDoneApplying sampleEnv
        ⟨{ kind := SampleKind.configMap, name := "settings" },
          [{ kind := SampleKind.pod, name := "c", ready := true },
           { kind := SampleKind.pod, name := "a" },
           { kind := SampleKind.pod, name := "b", failed := true }]⟩ :=
  order_independence sampleEnv _ _ _
    (by decide) (by decide)

/-- C20 at a pod that is also the first of its two associated resources: the list
returned by `findParentAndAssociatedRes` is `[pod/db]`, while the receiver's list, which
the Deployment constructor gets, is `[pod/db, pod/db]`. -/
theorem deployment_list_is_stale :
    (findParentAndAssociatedRes sampleEnv
        ⟨{ kind := SampleKind.pod, name := "web" },
          [{ kind := SampleKind.pod, name := "web" },
           { kind := SampleKind.pod, name := "db" }]⟩).associatedRs =
        [{ kind := SampleKind.pod, name := "db" }] ∧
      (receiverAfterFind sampleEnv
        ⟨{ kind := SampleKind.pod, name := "web" },
          [{ kind := SampleKind.pod, name := "web" },
           { kind := SampleKind.pod, name := "db" }]⟩).associatedRs =
        [{ kind := SampleKind.pod, name := "db" }, { kind := SampleKind.pod, name := "db" }] ∧
      (receiverAfterFind sampleEnv
        ⟨{ kind := SampleKind.pod, name := "db" },
          [{ kind := SampleKind.pod, name := "web" },
           { kind := SampleKind.pod, name := "db" }]⟩).associatedRs =
        [{ kind := SampleKind.pod, name := "web" }, { kind := SampleKind.pod, name := "db" }] := by
  decide

/-! ## The recorded app: reading, changing, deleting, renaming -/

theorem String.length_ne_zero_of_ne_empty {s : String} (h : s ≠ "") : s.length ≠ 0 := by
  intro hlen
  apply h
  cases s with
  | mk l =>
    have : l = [] := List.length_eq_zero.mp hlen
    subst this
    rfl

/-- What `update` does on the in-memory store, to a record kept under its own name whose
data can be parsed. -/
theorem update_memClient {M : Type} (A : AppEnv M) (a : RecordedApp M)
    (doFunc : AppMeta M → AppMeta M) (s : Store) (cm : ConfigMap) (m : AppMeta M)
    (hpresent : s (a.nsName, a.name) = some cm) (hname : cm.ObjectMeta.Name = a.name)
    (hparse : A.NewAppMetaFromData cm.Data = Except.ok m) :
    a.update A memClient doFunc s =
      (none, fun key =>
        if key = (a.nsName, a.name) then some { cm with Data := A.AsData (doFunc m) }
        else s key) := by
  unfold RecordedApp.update
  simp only [memClient, hpresent, hparse, hname]

/-- A run of `update` on the in-memory store that returns nil has found the record and
parsed its data. -/
theorem update_memClient_success {M : Type} (A : AppEnv M) (a : RecordedApp M)
    (doFunc : AppMeta M → AppMeta M) (s s1 : Store)
    (h : a.update A memClient doFunc s = (none, s1)) :
    ∃ cm m, s (a.nsName, a.name) = some cm ∧ A.NewAppMetaFromData cm.Data = Except.ok m := by
  unfold RecordedApp.update at h
  cases hget : s (a.nsName, a.name) with
  | none => simp [memClient, hget] at h
  | some cm =>
    cases hparse : A.NewAppMetaFromData cm.Data with
    | error e => simp [memClient, hget, hparse] at h
    | ok m => exact ⟨cm, m, rfl, hparse⟩

/-- C11, as stated, fails: on a handle that has read its metadata, `LastChange` after a
successful `BeginChange` returns no change. -/
theorem last_change_after_begin_change_counterexample :
    (({ name := "app1", nsName := "ns" } : RecordedApp String).Meta sampleAppEnv memClient
        sampleStore).1.2.memoizedMeta =
        some { LabelKey := kappAppLabelKey, LabelValue := "1", LastChangeName := "",
               LastChange := "" } ∧
      ((({ name := "app1", nsName := "ns" } : RecordedApp String).Meta sampleAppEnv memClient
          sampleStore).1.2.BeginChange sampleAppEnv memClient sampleChanges "deploy"
          sampleStore).1 =
        Except.ok
          { change := { name := "app1-change-1", nsName := "ns", meta := "deploy" }
            app := (({ name := "app1", nsName := "ns" } : RecordedApp String).Meta
              sampleAppEnv memClient sampleStore).1.2 } ∧
      ((({ name := "app1", nsName := "ns" } : RecordedApp String).Meta sampleAppEnv memClient
          sampleStore).1.2.LastChange sampleAppEnv memClient
          ((({ name := "app1", nsName := "ns" } : RecordedApp String).Meta sampleAppEnv
            memClient sampleStore).1.2.BeginChange sampleAppEnv memClient sampleChanges
            "deploy" sampleStore).2).1.1 = Except.ok none :=
  ⟨rfl, rfl, rfl⟩

/-- A run of `update` on the faulty store that returns nil has found the record, parsed
its data and, when the record is kept under its own name, replaced it. -/
theorem update_faultyClient_success {M : Type} (A : AppEnv M) (fails : Nat → Bool)
    (a : RecordedApp M) (doFunc : AppMeta M → AppMeta M) (st : Store) (n : Nat)
    (s1 : Store × Nat) (h : a.update A (faultyClient fails) doFunc (st, n) = (none, s1)) :
    ∃ cm m, st (a.nsName, a.name) = some cm ∧ A.NewAppMetaFromData cm.Data = Except.ok m ∧
      (cm.ObjectMeta.Name = a.name →
        s1 = (fun key =>
          if key = (a.nsName, a.name) then some { cm with Data := A.AsData (doFunc m) }
          else st key, n + 1 + 1)) := by
  unfold RecordedApp.update at h
  by_cases hf0 : fails n = true
  · simp [faultyClient, hf0] at h
  · cases hget : st (a.nsName, a.name) with
    | none => simp [faultyClient, memClient, hf0, hget] at h
    | some cm =>
      cases hparse : A.NewAppMetaFromData cm.Data with
      | error e => simp [faultyClient, memClient, hf0, hget, hparse] at h
      | ok m =>
        refine ⟨cm, m, rfl, hparse, ?_⟩
        intro hname
        by_cases hf1 : fails (n + 1) = true
        · simp [faultyClient, memClient, hf0, hget, hparse, hf1] at h
        · simp [faultyClient, memClient, hf0, hget, hparse, hf1, hname] at h
          exact h.symm

/-- What `LastChange` returns on a handle with cached metadata, on any store. -/
theorem LastChange_cached {M σ : Type} (A : AppEnv M) (client : CoreClient σ)
    (a : RecordedApp M) (m : AppMeta M) (hm : a.memoizedMeta = some m) (s : σ) :
    a.LastChange A client s =
      ((Except.ok
          (if m.LastChangeName.length = 0 then none
           else some { name := m.LastChangeName, nsName := a.nsName, meta := m.LastChange }),
        a), s) := by
  unfold RecordedApp.LastChange RecordedApp.meta
  simp only [hm]
  split <;> rfl

/-- C11, amended.  First, on the in-memory store whose calls may fail without effect,
with a serialisation that parses back what it wrote and the record kept under its own
name: for a handle whose metadata cache is empty, after a successful `BeginChange` that
began a change with a non-empty name, `LastChange` on the same handle returns a change of
that name when its read of the record does not fail, and the error of the read when it
does.  Second, on every store: for a handle whose cache holds metadata, `LastChange`
returns, without reading the store, the change named in the cached metadata (no change
when that name is empty), also right after a `BeginChange` on that handle. -/
theorem last_change_after_begin_change {M σ : Type} (A : AppEnv M) (client : CoreClient σ)
    (changes : ChangeOps M σ) (fails : Nat → Bool) (storeChanges : ChangeOps M (Store × Nat))
    (a : RecordedApp M) (changeMeta : M) :
    (∀ (st : Store) (n : Nat) (tc : appTrackingChange M) (s1 : Store × Nat),
        a.memoizedMeta = none →
        (∀ m, A.NewAppMetaFromData (A.AsData m) = Except.ok m) →
        (∀ cm, (storeChanges.Begin a.nsName a.name changeMeta (st, n)).2.1
            (a.nsName, a.name) = some cm → cm.ObjectMeta.Name = a.name) →
        a.BeginChange A (faultyClient fails) storeChanges changeMeta (st, n) =
          (Except.ok tc, s1) →
        tc.Name ≠ "" →
        (fails s1.2 = false →
          ∃ change a1,
            a.LastChange A (faultyClient fails) s1 =
              ((Except.ok (some change), a1), (s1.1, s1.2 + 1)) ∧
            change.Name = tc.Name) ∧
        (fails s1.2 = true →
          a.LastChange A (faultyClient fails) s1 =
            ((Except.error "Getting app: connection refused", a), (s1.1, s1.2 + 1)))) ∧
      (∀ m, a.memoizedMeta = some m →
        (∀ (s : σ),
          a.LastChange A client s =
            ((Except.ok
                (if m.LastChangeName.length = 0 then none
                 else some
                  { name := m.LastChangeName, nsName := a.nsName, meta := m.LastChange }),
              a), s)) ∧
        ∀ (s : σ),
          a.LastChange A client (a.BeginChange A client changes changeMeta s).2 =
            ((Except.ok
                (if m.LastChangeName.length = 0 then none
                 else some
                  { name := m.LastChangeName, nsName := a.nsName, meta := m.LastChange }),
              a), (a.BeginChange A client changes changeMeta s).2)) := by
  refine ⟨?_, ?_⟩
  · intro st n tc s1 hfresh hcodec hkeyed hbegin hname
    unfold RecordedApp.BeginChange at hbegin
    cases hb : storeChanges.Begin a.nsName a.name changeMeta (st, n) with
    | mk r s0 =>
      rw [hb] at hbegin hkeyed
      obtain ⟨st0, n0⟩ := s0
      cases r with
      | error e => simp at hbegin
      | ok change =>
        simp only [] at hbegin hkeyed
        cases hsync : appTrackingChange.syncOnApp A (faultyClient fails)
            { change := change, app := a } (st0, n0) with
        | mk e s2 =>
          rw [hsync] at hbegin
          cases e with
          | some err => simp at hbegin
          | none =>
            simp only [Prod.mk.injEq, Except.ok.injEq] at hbegin
            obtain ⟨htc, hs1⟩ := hbegin
            subst htc
            subst hs1
            unfold appTrackingChange.syncOnApp at hsync
            simp only [] at hsync
            obtain ⟨cm, m, hcm, hparse, hstore⟩ :=
              update_faultyClient_success A fails a _ st0 n0 s2 hsync
            have hs2 := hstore (hkeyed cm hcm)
            subst hs2
            have hlen : change.Name.length ≠ 0 := String.length_ne_zero_of_ne_empty hname
            constructor
            · intro hf
              simp only [] at hf
              refine ⟨{ name := change.Name, nsName := a.nsName, meta := change.meta },
                ⟨a.name, a.nsName, some ⟨m.LabelKey, m.LabelValue, change.Name, change.meta⟩⟩,
                ?_, rfl⟩
              unfold RecordedApp.LastChange RecordedApp.meta RecordedApp.setMeta
              simp [hfresh, faultyClient, memClient, hcodec, hlen, hf]
            · intro hf
              simp only [] at hf
              unfold RecordedApp.LastChange RecordedApp.meta
              simp [hfresh, faultyClient, hf]
  · intro m hm
    exact ⟨fun s => LastChange_cached A client a m hm s,
      fun s => LastChange_cached A client a m hm _⟩

/-- C11, amended, at a fresh handle of `app1` on the store where no call fails. -/
theorem last_change_after_begin_change_witness :
    ∃ change a1,
      ({ name := "app1", nsName := "ns" } : RecordedApp String).LastChange sampleAppEnv
          (faultyClient (fun _ => false))
          (({ name := "app1", nsName := "ns" } : RecordedApp String).BeginChange sampleAppEnv
            (faultyClient (fun _ => false)) sampleChanges.onCounted "deploy"
            (sampleStore, 0)).2 =
        ((Except.ok (some change), a1),
          ((({ name := "app1", nsName := "ns" } : RecordedApp String).BeginChange sampleAppEnv
            (faultyClient (fun _ => false)) sampleChanges.onCounted "deploy"
            (sampleStore, 0)).2.1,
           (({ name := "app1", nsName := "ns" } : RecordedApp String).BeginChange sampleAppEnv
            (faultyClient (fun _ => false)) sampleChanges.onCounted "deploy"
            (sampleStore, 0)).2.2 + 1)) ∧
      change.Name = "app1-change-1" :=
  ((last_change_after_begin_change sampleAppEnv memClient sampleChanges (fun _ => false)
    sampleChanges.onCounted { name := "app1", nsName := "ns" } "deploy").1
    sampleStore 0
    { change := { name := "app1-change-1", nsName := "ns", meta := "deploy" }
      app := { name := "app1", nsName := "ns" } }
    _
    rfl
    (fun m => rfl)
    (by
      intro cm hcm
      have h : cm = sampleRecord := by
        have : some sampleRecord = some cm := hcm
        exact (Option.some.inj this).symm
      rw [h]
      rfl)
    rfl
    (by decide)).1 rfl

/-- The three ways `update` fails, and its success, on any store. -/
theorem update_cases {M σ : Type} (A : AppEnv M) (client : CoreClient σ) (a : RecordedApp M)
    (doFunc : AppMeta M → AppMeta M) (s : σ) :
    (∀ err, (client.Get a.nsName a.name s).1 = Except.error err →
        a.update A client doFunc s =
          (some ("Getting app: " ++ err.text), (client.Get a.nsName a.name s).2)) ∧
      (∀ cm err, (client.Get a.nsName a.name s).1 = Except.ok cm →
        A.NewAppMetaFromData cm.Data = Except.error err →
        a.update A client doFunc s = (some err, (client.Get a.nsName a.name s).2)) ∧
      (∀ cm m err, (client.Get a.nsName a.name s).1 = Except.ok cm →
        A.NewAppMetaFromData cm.Data = Except.ok m →
        (client.Update a.nsName { cm with Data := A.AsData (doFunc m) }
          (client.Get a.nsName a.name s).2).1 = Except.error err →
        a.update A client doFunc s =
          (some ("Updating app: " ++ err.text),
            (client.Update a.nsName { cm with Data := A.AsData (doFunc m) }
              (client.Get a.nsName a.name s).2).2)) ∧
      (∀ cm m cm1, (client.Get a.nsName a.name s).1 = Except.ok cm →
        A.NewAppMetaFromData cm.Data = Except.ok m →
        (client.Update a.nsName { cm with Data := A.AsData (doFunc m) }
          (client.Get a.nsName a.name s).2).1 = Except.ok cm1 →
        a.update A client doFunc s =
          (none,
            (client.Update a.nsName { cm with Data := A.AsData (doFunc m) }
              (client.Get a.nsName a.name s).2).2)) := by
  refine ⟨?_, ?_, ?_, ?_⟩
  · intro err hget
    unfold RecordedApp.update
    cases hg : client.Get a.nsName a.name s with
    | mk r s1 =>
      rw [hg] at hget
      simp only [] at hget
      subst hget
      rfl
  · intro cm err hget hparse
    unfold RecordedApp.update
    cases hg : client.Get a.nsName a.name s with
    | mk r s1 =>
      rw [hg] at hget
      simp only [] at hget
      subst hget
      simp only [hparse]
  · intro cm m err hget hparse hupd
    unfold RecordedApp.update
    cases hg : client.Get a.nsName a.name s with
    | mk r s1 =>
      rw [hg] at hget hupd
      simp only [] at hget hupd
      subst hget
      simp only [hparse]
      cases hu : client.Update a.nsName { cm with Data := A.AsData (doFunc m) } s1 with
      | mk r2 s2 =>
        rw [hu] at hupd
        simp only [] at hupd
        subst hupd
        rfl
  · intro cm m cm1 hget hparse hupd
    unfold RecordedApp.update
    cases hg : client.Get a.nsName a.name s with
    | mk r s1 =>
      rw [hg] at hget hupd
      simp only [] at hget hupd
      subst hget
      simp only [hparse]
      cases hu : client.Update a.nsName { cm with Data := A.AsData (doFunc m) } s1 with
      | mk r2 s2 =>
        rw [hu] at hupd
        simp only [] at hupd
        subst hupd
        rfl

/-- C12 (compensation in `BeginChange`): when `Begin` fails, its error is returned and the
store is as `Begin` left it (no read or write of the app record follows); when `Begin`
succeeds and the write of the last-change pointer fails with `err` (on the get, the
parse or the update), `BeginChange` returns `err` itself and no handle, and the store is
the one a single `Fail` of the new change leaves after the failed write, the result of
that `Fail` being dropped. -/
theorem begin_change_compensation {M σ : Type} (A : AppEnv M) (client : CoreClient σ)
    (changes : ChangeOps M σ) (a : RecordedApp M) (changeMeta : M) (s : σ) :
    (∀ err, (changes.Begin a.nsName a.name changeMeta s).1 = Except.error err →
        a.BeginChange A client changes changeMeta s =
          (Except.error err, (changes.Begin a.nsName a.name changeMeta s).2)) ∧
      (∀ change err, (changes.Begin a.nsName a.name changeMeta s).1 = Except.ok change →
        (appTrackingChange.syncOnApp A client { change := change, app := a }
          (changes.Begin a.nsName a.name changeMeta s).2).1 = some err →
        a.BeginChange A client changes changeMeta s =
          (Except.error err,
            (changes.Fail change
              (appTrackingChange.syncOnApp A client { change := change, app := a }
                (changes.Begin a.nsName a.name changeMeta s).2).2).2)) ∧
      (∀ change s1 err, changes.Begin a.nsName a.name changeMeta s = (Except.ok change, s1) →
        (client.Get a.nsName a.name s1).1 = Except.error err →
        a.BeginChange A client changes changeMeta s =
          (Except.error ("Getting app: " ++ err.text),
            (changes.Fail change (client.Get a.nsName a.name s1).2).2)) ∧
      (∀ change s1 cm err, changes.Begin a.nsName a.name changeMeta s = (Except.ok change, s1) →
        (client.Get a.nsName a.name s1).1 = Except.ok cm →
        A.NewAppMetaFromData cm.Data = Except.error err →
        a.BeginChange A client changes changeMeta s =
          (Except.error err, (changes.Fail change (client.Get a.nsName a.name s1).2).2)) ∧
      (∀ change s1 cm m err,
        changes.Begin a.nsName a.name changeMeta s = (Except.ok change, s1) →
        (client.Get a.nsName a.name s1).1 = Except.ok cm →
        A.NewAppMetaFromData cm.Data = Except.ok m →
        (client.Update a.nsName
          { cm with Data := A.AsData (
              { m with LastChangeName := change.Name, LastChange := change.meta }) }
          (client.Get a.nsName a.name s1).2).1 = Except.error err →
        a.BeginChange A client changes changeMeta s =
          (Except.error ("Updating app: " ++ err.text),
            (changes.Fail change
              (client.Update a.nsName
                { cm with Data := A.AsData (
                    { m with LastChangeName := change.Name, LastChange := change.meta }) }
                (client.Get a.nsName a.name s1).2).2).2)) := by
  have hsecond : ∀ change err,
      (changes.Begin a.nsName a.name changeMeta s).1 = Except.ok change →
      (appTrackingChange.syncOnApp A client { change := change, app := a }
        (changes.Begin a.nsName a.name changeMeta s).2).1 = some err →
      a.BeginChange A client changes changeMeta s =
        (Except.error err,
          (changes.Fail change
            (appTrackingChange.syncOnApp A client { change := change, app := a }
              (changes.Begin a.nsName a.name changeMeta s).2).2).2) := by
    intro change err hb hsync
    unfold RecordedApp.BeginChange
    cases hbe : changes.Begin a.nsName a.name changeMeta s with
    | mk r s1 =>
      rw [hbe] at hb hsync
      simp only [] at hb hsync
      subst hb
      simp only []
      cases hsy : appTrackingChange.syncOnApp A client { change := change, app := a } s1 with
      | mk e s2 =>
        rw [hsy] at hsync
        simp only [] at hsync
        subst hsync
        rfl
  refine ⟨?_, hsecond, ?_, ?_, ?_⟩
  · intro err hb
    unfold RecordedApp.BeginChange
    cases hbe : changes.Begin a.nsName a.name changeMeta s with
    | mk r s1 =>
      rw [hbe] at hb
      simp only [] at hb
      subst hb
      rfl
  · intro change s1 err hb hget
    have h := (update_cases A client a
      (fun appMeta =>
        { appMeta with LastChangeName := change.Name, LastChange := change.meta }) s1).1 err hget
    have := hsecond change ("Getting app: " ++ err.text) (by rw [hb])
      (by rw [hb]; exact congrArg Prod.fst h)
    rw [this, hb]
    simp only []
    rw [show appTrackingChange.syncOnApp A client { change := change, app := a } s1 =
      _ from h]
  · intro change s1 cm err hb hget hparse
    have h := (update_cases A client a
      (fun appMeta =>
        { appMeta with LastChangeName := change.Name, LastChange := change.meta }) s1).2.1
      cm err hget hparse
    have := hsecond change err (by rw [hb]) (by rw [hb]; exact congrArg Prod.fst h)
    rw [this, hb]
    simp only []
    rw [show appTrackingChange.syncOnApp A client { change := change, app := a } s1 =
      _ from h]
  · intro change s1 cm m err hb hget hparse hupd
    have h := (update_cases A client a
      (fun appMeta =>
        { appMeta with LastChangeName := change.Name, LastChange := change.meta }) s1).2.2.1
      cm m err hget hparse hupd
    have := hsecond change ("Updating app: " ++ err.text) (by rw [hb])
      (by rw [hb]; exact congrArg Prod.fst h)
    rw [this, hb]
    simp only []
    rw [show appTrackingChange.syncOnApp A client { change := change, app := a } s1 =
      _ from h]

/-- C12 on a store without the record of `app1`: the change is begun, the read of the
record fails, and that error is what `BeginChange` returns. -/
theorem begin_change_compensation_witness :
    (({ name := "app1", nsName := "ns" } : RecordedApp String).BeginChange sampleAppEnv
        memClient sampleChanges "deploy" (fun _ => none)).1 =
      Except.error "Getting app: configmaps app1 not found" :=
  congrArg Prod.fst
    ((begin_change_compensation sampleAppEnv memClient sampleChanges
      { name := "app1", nsName := "ns" } "deploy" (fun _ => none)).2.2.1
      { name := "app1-change-1", nsName := "ns", meta := "deploy" } _
      ⟨StatusReason.NotFound, "configmaps app1 not found"⟩ rfl rfl)

/-- C13 (the tracking change returns the underlying result): `Fail` and `Succeed` of the
handle returned by `BeginChange` return what `Fail` and `Succeed` of the underlying change
return; when that is an error the store is as the underlying call left it (no sync of the
app record follows); when it is nil the sync runs on the change as the call left it and
its result is dropped. -/
theorem tracking_change_returns_underlying_result {M σ : Type} (A : AppEnv M)
    (client : CoreClient σ) (changes : ChangeOps M σ) (c : appTrackingChange M) (s : σ) :
    ((c.Fail A client changes s).1.1 = (changes.Fail c.change s).1.1 ∧
        (∀ err, (changes.Fail c.change s).1.1 = some err →
          (c.Fail A client changes s).2 = (changes.Fail c.change s).2) ∧
        ((changes.Fail c.change s).1.1 = none →
          (c.Fail A client changes s).1.1 = none ∧
          (c.Fail A client changes s).2 =
            (appTrackingChange.syncOnApp A client
              { change := (changes.Fail c.change s).1.2, app := c.app }
              (changes.Fail c.change s).2).2)) ∧
      ((c.Succeed A client changes s).1.1 = (changes.Succeed c.change s).1.1 ∧
        (∀ err, (changes.Succeed c.change s).1.1 = some err →
          (c.Succeed A client changes s).2 = (changes.Succeed c.change s).2) ∧
        ((changes.Succeed c.change s).1.1 = none →
          (c.Succeed A client changes s).1.1 = none ∧
          (c.Succeed A client changes s).2 =
            (appTrackingChange.syncOnApp A client
              { change := (changes.Succeed c.change s).1.2, app := c.app }
              (changes.Succeed c.change s).2).2)) := by
  constructor
  · unfold appTrackingChange.Fail
    cases h : changes.Fail c.change s with
    | mk r s1 =>
      obtain ⟨e, change⟩ := r
      cases e with
      | none => simp
      | some err => simp
  · unfold appTrackingChange.Succeed
    cases h : changes.Succeed c.change s with
    | mk r s1 =>
      obtain ⟨e, change⟩ := r
      cases e with
      | none => simp
      | some err => simp

/-- C13 at a change of `app1` whose record is gone: the sync fails, and `Fail` returns
nil all the same. -/
theorem tracking_change_returns_underlying_result_witness :
    (appTrackingChange.Fail sampleAppEnv memClient sampleChanges
        { change := { name := "app1-change-1", nsName := "ns", meta := "deploy" }
          app := { name := "app1", nsName := "ns" } } (fun _ => none)).1.1 = none ∧
      (appTrackingChange.syncOnApp sampleAppEnv memClient
        { change := { name := "app1-change-1", nsName := "ns", meta := "deploy (failed)" }
          app := { name := "app1", nsName := "ns" } } (fun _ => none)).1 =
        some "Getting app: configmaps app1 not found" :=
  ⟨((tracking_change_returns_underlying_result sampleAppEnv memClient sampleChanges
      { change := { name := "app1-change-1", nsName := "ns", meta := "deploy" }
        app := { name := "app1", nsName := "ns" } } (fun _ => none)).1.2.2 rfl).1, rfl⟩

/-- C14 (the order of `Delete`): `Delete` reads the metadata, then deletes the changes,
then the resources under the label selector, then the record, and returns at the first
failure with the store as the failed step left it: nothing is deleted when the metadata
cannot be read, no resource and no record when the changes cannot be deleted, no record
when the resources cannot be deleted; it returns nil only when all three deletions
returned nil. -/
theorem delete_stops_at_first_failure {M σ : Type} (A : AppEnv M) (client : CoreClient σ)
    (changes : ChangeOps M σ) (labeled : LabeledAppOps M σ) (a : RecordedApp M) (s : σ) :
    (∀ err a1 s1, a.labeledApp A client labeled s = ((Except.error err, a1), s1) →
        a.Delete A client changes labeled s = ((some err, a1), s1)) ∧
      (∀ app a1 s1 err s2, a.labeledApp A client labeled s = ((Except.ok app, a1), s1) →
        changes.DeleteAll a.nsName a.name s1 = (some err, s2) →
        a.Delete A client changes labeled s =
          ((some ("Deleting app changes: " ++ err), a1), s2)) ∧
      (∀ app a1 s1 s2 err s3, a.labeledApp A client labeled s = ((Except.ok app, a1), s1) →
        changes.DeleteAll a.nsName a.name s1 = (none, s2) →
        labeled.Delete app s2 = (some err, s3) →
        a.Delete A client changes labeled s = ((some err, a1), s3)) ∧
      (∀ app a1 s1 s2 s3 err s4, a.labeledApp A client labeled s = ((Except.ok app, a1), s1) →
        changes.DeleteAll a.nsName a.name s1 = (none, s2) →
        labeled.Delete app s2 = (none, s3) →
        client.Delete a.nsName a.name s3 = (some err, s4) →
        a.Delete A client changes labeled s =
          ((some ("Deleting app: " ++ err.text), a1), s4)) ∧
      (∀ a1 s4, a.Delete A client changes labeled s = ((none, a1), s4) →
        ∃ app s1 s2 s3, a.labeledApp A client labeled s = ((Except.ok app, a1), s1) ∧
          changes.DeleteAll a.nsName a.name s1 = (none, s2) ∧
          labeled.Delete app s2 = (none, s3) ∧
          client.Delete a.nsName a.name s3 = (none, s4)) := by
  refine ⟨?_, ?_, ?_, ?_, ?_⟩
  · intro err a1 s1 h
    simp only [RecordedApp.Delete, h]
  · intro app a1 s1 err s2 h h2
    simp only [RecordedApp.Delete, h, h2]
  · intro app a1 s1 s2 err s3 h h2 h3
    simp only [RecordedApp.Delete, h, h2, h3]
  · intro app a1 s1 s2 s3 err s4 h h2 h3 h4
    simp only [RecordedApp.Delete, h, h2, h3, h4]
  · intro a1 s4 h
    unfold RecordedApp.Delete at h
    cases hl : a.labeledApp A client labeled s with
    | mk r s1 =>
      obtain ⟨r, a2⟩ := r
      rw [hl] at h
      cases r with
      | error e => simp at h
      | ok app =>
        simp only [] at h
        cases h2 : changes.DeleteAll a.nsName a.name s1 with
        | mk e2 s2 =>
          rw [h2] at h
          cases e2 with
          | some e => simp at h
          | none =>
            simp only [] at h
            cases h3 : labeled.Delete app s2 with
            | mk e3 s3 =>
              rw [h3] at h
              cases e3 with
              | some e => simp at h
              | none =>
                simp only [] at h
                cases h4 : client.Delete a.nsName a.name s3 with
                | mk e4 s4b =>
                  rw [h4] at h
                  cases e4 with
                  | some e => simp at h
                  | none =>
                    simp only [Prod.mk.injEq, true_and] at h
                    obtain ⟨ha, hs⟩ := h
                    subst ha
                    subst hs
                    exact ⟨app, s1, s2, s3, rfl, h2, h3, h4⟩

/-- C14 on a store without the record of `app1`: the metadata cannot be read, and the
store is as it was. -/
theorem delete_stops_at_first_failure_witness :
    (({ name := "app1", nsName := "ns" } : RecordedApp String).Delete sampleAppEnv memClient
        sampleChanges sampleLabeled (fun _ => none)).1.1 =
      some "App 'app1' (namespace: ns) does not exist: configmaps app1 not found" :=
  congrArg (fun r => r.1.1)
    ((delete_stops_at_first_failure sampleAppEnv memClient sampleChanges sampleLabeled
      { name := "app1", nsName := "ns" } (fun _ => none)).1
      "App 'app1' (namespace: ns) does not exist: configmaps app1 not found"
      { name := "app1", nsName := "ns" } (fun _ => none) rfl)

/-- A read of the faulty store that succeeds returns what is stored. -/
theorem faultyClient_get_ok (fails : Nat → Bool) (ns name : String) (st : Store) (n : Nat)
    (old : ConfigMap) (h : ((faultyClient fails).Get ns name (st, n)).1 = Except.ok old) :
    st (ns, name) = some old ∧
      (faultyClient fails).Get ns name (st, n) = (Except.ok old, (st, n + 1)) := by
  by_cases hf : fails n = true
  · simp [faultyClient, hf] at h
  · cases hold : st (ns, name) with
    | none => simp [faultyClient, memClient, hf, hold] at h
    | some old1 =>
      have : old1 = old := by simpa [faultyClient, memClient, hf, hold] using h
      subst this
      simp [faultyClient, memClient, hf, hold]

/-- A creation on the faulty store that fails leaves the contents as they were. -/
theorem faultyClient_create_error (fails : Nat → Bool) (ns : String) (cm : ConfigMap)
    (st : Store) (n : Nat) (err : ClientError) (s2 : Store × Nat)
    (h : (faultyClient fails).Create ns cm (st, n) = (Except.error err, s2)) : s2.1 = st := by
  by_cases hf : fails n = true
  · simp [faultyClient, hf] at h
    rw [← h.2]
  · cases hnew : st (ns, cm.ObjectMeta.Name) with
    | none => simp [faultyClient, memClient, hf, hnew] at h
    | some other =>
      simp [faultyClient, memClient, hf, hnew] at h
      rw [← h.2]

/-- A creation on the faulty store that succeeds found the name free and stored the
object under it. -/
theorem faultyClient_create_ok (fails : Nat → Bool) (ns : String) (cm : ConfigMap)
    (st : Store) (n : Nat) (created : ConfigMap) (s2 : Store × Nat)
    (h : (faultyClient fails).Create ns cm (st, n) = (Except.ok created, s2)) :
    st (ns, cm.ObjectMeta.Name) = none ∧
      s2 = (fun key => if key = (ns, cm.ObjectMeta.Name) then some cm else st key, n + 1) := by
  by_cases hf : fails n = true
  · simp [faultyClient, hf] at h
  · cases hnew : st (ns, cm.ObjectMeta.Name) with
    | some other => simp [faultyClient, memClient, hf, hnew] at h
    | none =>
      simp [faultyClient, memClient, hf, hnew] at h
      exact ⟨rfl, h.2.symm⟩

/-- A deletion on the faulty store that fails leaves the contents as they were. -/
theorem faultyClient_delete_error (fails : Nat → Bool) (ns name : String) (st : Store)
    (n : Nat) (err : ClientError) (s3 : Store × Nat)
    (h : (faultyClient fails).Delete ns name (st, n) = (some err, s3)) : s3.1 = st := by
  by_cases hf : fails n = true
  · simp [faultyClient, hf] at h
    rw [← h.2]
  · cases hold : st (ns, name) with
    | some old => simp [faultyClient, memClient, hf, hold] at h
    | none =>
      simp [faultyClient, memClient, hf, hold] at h
      rw [← h.2]

/-- A deletion on the faulty store that succeeds removes the object. -/
theorem faultyClient_delete_ok (fails : Nat → Bool) (ns name : String) (st : Store)
    (n : Nat) (s3 : Store × Nat)
    (h : (faultyClient fails).Delete ns name (st, n) = (none, s3)) :
    s3.1 = fun key => if key = (ns, name) then none else st key := by
  by_cases hf : fails n = true
  · simp [faultyClient, hf] at h
  · cases hold : st (ns, name) with
    | none => simp [faultyClient, memClient, hf, hold] at h
    | some old =>
      simp [faultyClient, memClient, hf, hold] at h
      rw [← h]

/-- C15 (`Rename`), on the in-memory store whose calls may fail without effect.  When
`Rename` returns nil the store has no record under the old name and, under the new name,
a record with the labels, annotations and data of the old one and every other metadata
field at its zero value.  When the record is read and its creation under the new name
fails, the contents of the store are as they were.  When the creation succeeds and the
deletion of the old record fails, an error is returned and both records are there. -/
theorem rename_keeps_labels_annotations_data {M : Type} (fails : Nat → Bool)
    (a : RecordedApp M) (newName : String) (st : Store) (n : Nat) :
    (∀ st1 n1, a.Rename (faultyClient fails) newName (st, n) = (none, (st1, n1)) →
        ∃ old, st (a.nsName, a.name) = some old ∧
          st1 (a.nsName, a.name) = none ∧
          st1 (a.nsName, newName) =
            some { ObjectMeta :=
                    { Name := newName, Namespace := a.nsName,
                      Labels := old.ObjectMeta.Labels,
                      Annotations := old.ObjectMeta.Annotations,
                      UID := "", ResourceVersion := "" }
                   Data := old.Data }) ∧
      (∀ old err s2, ((faultyClient fails).Get a.nsName a.name (st, n)).1 = Except.ok old →
        (faultyClient fails).Create a.nsName
            { old with ObjectMeta :=
                { Name := newName, Namespace := a.nsName,
                  Labels := old.ObjectMeta.Labels,
                  Annotations := old.ObjectMeta.Annotations } }
            ((faultyClient fails).Get a.nsName a.name (st, n)).2 = (Except.error err, s2) →
        a.Rename (faultyClient fails) newName (st, n) =
            (some ("Creating app: " ++ err.text), s2) ∧
          s2.1 = st) ∧
      (∀ old created s2 err s3,
        ((faultyClient fails).Get a.nsName a.name (st, n)).1 = Except.ok old →
        (faultyClient fails).Create a.nsName
            { old with ObjectMeta :=
                { Name := newName, Namespace := a.nsName,
                  Labels := old.ObjectMeta.Labels,
                  Annotations := old.ObjectMeta.Annotations } }
            ((faultyClient fails).Get a.nsName a.name (st, n)).2 = (Except.ok created, s2) →
        (faultyClient fails).Delete a.nsName a.name s2 = (some err, s3) →
        a.Rename (faultyClient fails) newName (st, n) =
            (some ("Deleting app: " ++ err.text), s3) ∧
          s3.1 (a.nsName, a.name) = some old ∧
          s3.1 (a.nsName, newName) =
            some { ObjectMeta :=
                    { Name := newName, Namespace := a.nsName,
                      Labels := old.ObjectMeta.Labels,
                      Annotations := old.ObjectMeta.Annotations,
                      UID := "", ResourceVersion := "" }
                   Data := old.Data }) := by
  refine ⟨?_, ?_, ?_⟩
  · intro st1 n1 h
    unfold RecordedApp.Rename at h
    cases hg : (faultyClient fails).Get a.nsName a.name (st, n) with
    | mk r s1 =>
      rw [hg] at h
      cases r with
      | error e =>
        simp only [] at h
        split at h <;> simp at h
      | ok old =>
        obtain ⟨hold, hget⟩ := faultyClient_get_ok fails a.nsName a.name st n old
          (by rw [hg])
        rw [hg] at hget
        simp only [Prod.mk.injEq, true_and] at hget
        subst hget
        simp only [] at h
        cases hc : (faultyClient fails).Create a.nsName
            { old with ObjectMeta :=
                { Name := newName, Namespace := a.nsName,
                  Labels := old.ObjectMeta.Labels,
                  Annotations := old.ObjectMeta.Annotations } } (st, n + 1) with
        | mk r2 s2 =>
          rw [hc] at h
          cases r2 with
          | error e => simp at h
          | ok created =>
            obtain ⟨hnew, hs2⟩ := faultyClient_create_ok fails a.nsName _ st (n + 1) created s2 hc
            simp only [] at hnew
            subst hs2
            simp only [] at h
            have hne : newName ≠ a.name := by
              rintro rfl
              rw [hold] at hnew
              exact absurd hnew (by simp)
            cases hd : (faultyClient fails).Delete a.nsName a.name
                (fun key => if key = (a.nsName, newName) then
                    some ({ old with ObjectMeta :=
                      { Name := newName, Namespace := a.nsName,
                        Labels := old.ObjectMeta.Labels,
                        Annotations := old.ObjectMeta.Annotations } } : ConfigMap)
                  else st key, n + 1 + 1) with
            | mk e3 s3 =>
              rw [hd] at h
              cases e3 with
              | some e => simp at h
              | none =>
                have hs3 := faultyClient_delete_ok fails a.nsName a.name _ _ s3 hd
                simp only [Prod.mk.injEq, true_and] at h
                rw [h] at hs3
                simp only [] at hs3
                subst hs3
                exact ⟨old, hold, by simp, by simp [hne]⟩
  · intro old err s2 hget hcreate
    obtain ⟨hold, hg⟩ := faultyClient_get_ok fails a.nsName a.name st n old hget
    rw [hg] at hcreate
    simp only [] at hcreate
    refine ⟨?_, faultyClient_create_error fails a.nsName _ st (n + 1) err s2 hcreate⟩
    unfold RecordedApp.Rename
    simp only [hg, hcreate]
  · intro old created s2 err s3 hget hcreate hdelete
    obtain ⟨hold, hg⟩ := faultyClient_get_ok fails a.nsName a.name st n old hget
    rw [hg] at hcreate
    simp only [] at hcreate
    obtain ⟨hnew, hs2⟩ := faultyClient_create_ok fails a.nsName _ st (n + 1) created s2 hcreate
    simp only [] at hnew
    have hne : newName ≠ a.name := by
      rintro rfl
      rw [hold] at hnew
      exact absurd hnew (by simp)
    refine ⟨?_, ?_⟩
    · unfold RecordedApp.Rename
      simp only [hg, hcreate, hdelete]
    · subst hs2
      have hs3 := faultyClient_delete_error fails a.nsName a.name _ _ err s3 hdelete
      rw [hs3]
      simp [hold, hne, Ne.symm hne]

/-- C15 at the app `app1` renamed to `app2`: no call fails, and the old name is free
afterwards. -/
theorem rename_keeps_labels_annotations_data_witness :
    ∃ old, sampleStore ("ns", "app1") = some old ∧
      (({ name := "app1", nsName := "ns" } : RecordedApp String).Rename
        (faultyClient (fun _ => false)) "app2" (sampleStore, 0)).2.1 ("ns", "app1") = none ∧
      (({ name := "app1", nsName := "ns" } : RecordedApp String).Rename
        (faultyClient (fun _ => false)) "app2" (sampleStore, 0)).2.1 ("ns", "app2") =
        some { ObjectMeta :=
                { Name := "app2", Namespace := "ns",
                  Labels := old.ObjectMeta.Labels,
                  Annotations := old.ObjectMeta.Annotations,
                  UID := "", ResourceVersion := "" }
               Data := old.Data } :=
  (rename_keeps_labels_annotations_data (fun _ => false)
    ({ name := "app1", nsName := "ns" } : RecordedApp String) "app2" sampleStore 0).1
    _ _ rfl

/-- C17 (the last-change pointer is written as a pair): on the in-memory store, for a
record kept under its own name whose data parses to `m`, `syncOnApp` returns nil and
replaces the record by the same object with the data of `m` in which `LastChangeName` and
`LastChange` are the name and the metadata of the change, `LabelKey` and `LabelValue`
those of `m`, the object metadata (labels included) as before; a run that returns nil
found such a record.  On any store, when the record cannot be fetched or its data cannot
be parsed, the store is as the read left it: no write is made. -/
theorem sync_on_app_writes_the_pair {M σ : Type} (A : AppEnv M) (client : CoreClient σ)
    (c : appTrackingChange M) :
    (∀ (s : Store) cm m, s (c.app.nsName, c.app.name) = some cm →
        cm.ObjectMeta.Name = c.app.name →
        A.NewAppMetaFromData cm.Data = Except.ok m →
        c.syncOnApp A memClient s =
          (none, fun key =>
            if key = (c.app.nsName, c.app.name) then
              some { ObjectMeta := cm.ObjectMeta
                     Data := A.AsData
                      { LabelKey := m.LabelKey, LabelValue := m.LabelValue,
                        LastChangeName := c.change.Name, LastChange := c.change.meta } }
            else s key)) ∧
      (∀ (s s1 : Store), c.syncOnApp A memClient s = (none, s1) →
        ∃ cm m, s (c.app.nsName, c.app.name) = some cm ∧
          A.NewAppMetaFromData cm.Data = Except.ok m) ∧
      (∀ (s : σ) err, (client.Get c.app.nsName c.app.name s).1 = Except.error err →
        c.syncOnApp A client s =
          (some ("Getting app: " ++ err.text), (client.Get c.app.nsName c.app.name s).2)) ∧
      (∀ (s : σ) cm err, (client.Get c.app.nsName c.app.name s).1 = Except.ok cm →
        A.NewAppMetaFromData cm.Data = Except.error err →
        c.syncOnApp A client s = (some err, (client.Get c.app.nsName c.app.name s).2)) ∧
      (∀ (s : Store) err, (c.syncOnApp A memClient s).1 = some err →
        (c.syncOnApp A memClient s).2 = s) := by
  refine ⟨?_, ?_, ?_, ?_, ?_⟩
  · intro s cm m hcm hname hparse
    unfold appTrackingChange.syncOnApp
    rw [update_memClient A c.app _ s cm m hcm hname hparse]
  · intro s s1 h
    exact update_memClient_success A c.app _ s s1 h
  · intro s err hget
    exact (update_cases A client c.app _ s).1 err hget
  · intro s cm err hget hparse
    exact (update_cases A client c.app _ s).2.1 cm err hget hparse
  · intro s err h
    unfold appTrackingChange.syncOnApp RecordedApp.update at h ⊢
    cases hget : s (c.app.nsName, c.app.name) with
    | none => simp [memClient, hget]
    | some cm =>
      cases hparse : A.NewAppMetaFromData cm.Data with
      | error e => simp [memClient, hget, hparse]
      | ok m =>
        cases hupd : s (c.app.nsName, cm.ObjectMeta.Name) with
        | none => simp [memClient, hget, hparse, hupd]
        | some other => simp [memClient, hget, hparse, hupd] at h

/-- C17 at the record of `app1` and its first change. -/
theorem sync_on_app_writes_the_pair_witness :
    appTrackingChange.syncOnApp sampleAppEnv memClient
        { change := { name := "app1-change-1", nsName := "ns", meta := "deploy" }
          app := { name := "app1", nsName := "ns" } } sampleStore =
      (none, fun key =>
        if key = ("ns", "app1") then
          some { ObjectMeta := sampleRecord.ObjectMeta
                 Data := sampleAppEnv.AsData
                  { LabelKey := kappAppLabelKey, LabelValue := "1",
                    LastChangeName := "app1-change-1", LastChange := "deploy" } }
        else sampleStore key) :=
  (sync_on_app_writes_the_pair sampleAppEnv memClient
    { change := { name := "app1-change-1", nsName := "ns", meta := "deploy" }
      app := { name := "app1", nsName := "ns" } }).1 sampleStore sampleRecord
    { LabelKey := kappAppLabelKey, LabelValue := "1", LastChangeName := "", LastChange := "" }
    rfl rfl rfl

/-- C18 (memoization without invalidation): a handle with cached metadata returns it from
`Meta` on every store and with every client, leaving store and handle as they are (the
store is not read); a `Meta` that succeeds leaves the metadata it returns in the cache, so
every later `Meta` returns it, also after a `BeginChange` of the same handle; a `Meta`
that fails on an empty cache leaves the cache empty, so the next `Meta` reads the store
again. -/
theorem meta_is_memoized {M σ : Type} (A : AppEnv M) (client : CoreClient σ)
    (changes : ChangeOps M σ) (a : RecordedApp M) (s : σ) :
    (∀ m, a.memoizedMeta = some m →
        ∀ (client2 : CoreClient σ) (s2 : σ),
          a.Meta A client2 s2 = ((Except.ok m, a), s2)) ∧
      (∀ m a1 s1, a.Meta A client s = ((Except.ok m, a1), s1) →
        a1.memoizedMeta = some m ∧
          (∀ (client2 : CoreClient σ) (s2 : σ),
            a1.Meta A client2 s2 = ((Except.ok m, a1), s2)) ∧
          ∀ changeMeta,
            a1.Meta A client (a1.BeginChange A client changes changeMeta s1).2 =
              ((Except.ok m, a1), (a1.BeginChange A client changes changeMeta s1).2)) ∧
      (∀ err a1 s1, a.memoizedMeta = none →
        a.Meta A client s = ((Except.error err, a1), s1) →
        a1 = a ∧ a1.memoizedMeta = none ∧
          ∀ (s2 : σ), (a1.Meta A client s2).2 = (client.Get a.nsName a.name s2).2) := by
  have hcached : ∀ (b : RecordedApp M) m, b.memoizedMeta = some m →
      ∀ (client2 : CoreClient σ) (s2 : σ), b.Meta A client2 s2 = ((Except.ok m, b), s2) := by
    intro b m hb client2 s2
    unfold RecordedApp.Meta RecordedApp.meta
    simp only [hb]
  have hread : ∀ (b : RecordedApp M), b.memoizedMeta = none →
      ∀ (s2 : σ), (b.Meta A client s2).2 = (client.Get b.nsName b.name s2).2 := by
    intro b hb s2
    unfold RecordedApp.Meta RecordedApp.meta
    simp only [hb]
    cases hg : client.Get b.nsName b.name s2 with
    | mk r s3 =>
      cases r with
      | error e =>
        simp only []
        split <;> rfl
      | ok cm => rfl
  refine ⟨hcached a, ?_, ?_⟩
  · intro m a1 s1 h
    have hmemo : a1.memoizedMeta = some m := by
      unfold RecordedApp.Meta RecordedApp.meta at h
      cases hm : a.memoizedMeta with
      | some m0 =>
        rw [hm] at h
        simp only [Prod.mk.injEq, Except.ok.injEq] at h
        obtain ⟨⟨hm0, ha⟩, _⟩ := h
        subst ha
        subst hm0
        exact hm
      | none =>
        rw [hm] at h
        simp only [] at h
        cases hg : client.Get a.nsName a.name s with
        | mk r s3 =>
          rw [hg] at h
          cases r with
          | error e =>
            simp only [] at h
            split at h <;> simp at h
          | ok cm =>
            simp only [RecordedApp.setMeta] at h
            cases hp : A.NewAppMetaFromData cm.Data with
            | error e =>
              rw [hp] at h
              simp at h
            | ok m1 =>
              rw [hp] at h
              simp only [Prod.mk.injEq, Except.ok.injEq] at h
              obtain ⟨⟨hm1, ha⟩, _⟩ := h
              subst ha
              subst hm1
              rfl
    exact ⟨hmemo, hcached a1 m hmemo, fun changeMeta => hcached a1 m hmemo client _⟩
  · intro err a1 s1 hnone h
    have ha : a1 = a := by
      unfold RecordedApp.Meta RecordedApp.meta at h
      rw [hnone] at h
      simp only [] at h
      cases hg : client.Get a.nsName a.name s with
      | mk r s3 =>
        rw [hg] at h
        cases r with
        | error e =>
          simp only [] at h
          split at h
          · simp only [Prod.mk.injEq] at h
            exact h.1.2.symm
          · simp only [Prod.mk.injEq] at h
            exact h.1.2.symm
        | ok cm =>
          simp only [RecordedApp.setMeta] at h
          cases hp : A.NewAppMetaFromData cm.Data with
          | error e =>
            rw [hp] at h
            simp only [Prod.mk.injEq] at h
            exact h.1.2.symm
          | ok m1 =>
            rw [hp] at h
            simp at h
    subst ha
    exact ⟨rfl, hnone, hread a1 hnone⟩

/-- C18 at a handle of `app1` that has read its metadata: after a `BeginChange` on the
same handle, `Meta` still returns the metadata without the last change. -/
theorem meta_is_memoized_witness :
    ((({ name := "app1", nsName := "ns" } : RecordedApp String).Meta sampleAppEnv memClient
        sampleStore).1.2.Meta sampleAppEnv memClient
        ((({ name := "app1", nsName := "ns" } : RecordedApp String).Meta sampleAppEnv memClient
          sampleStore).1.2.BeginChange sampleAppEnv memClient sampleChanges "deploy"
          sampleStore).2).1.1 =
      Except.ok
        { LabelKey := kappAppLabelKey, LabelValue := "1", LastChangeName := "",
          LastChange := "" } :=
  congrArg (fun r => r.1.1)
    (((meta_is_memoized sampleAppEnv memClient sampleChanges
      ({ name := "app1", nsName := "ns" } : RecordedApp String) sampleStore).2.1
      { LabelKey := kappAppLabelKey, LabelValue := "1", LastChangeName := "", LastChange := "" }
      _ sampleStore rfl).2.2 "deploy")

/-! ## `CreateOrUpdate` on an existing record -/

/-- The loop of `mergeAppUpdates` leaves the data and the name of the config map as
they are. -/
theorem mergeAppUpdates_frame :
    ∀ (U : MapEntries) (cm : ConfigMap),
      (mergeAppUpdates cm U).1.Data = cm.Data ∧
        (mergeAppUpdates cm U).1.ObjectMeta.Name = cm.ObjectMeta.Name := by
  intro U
  induction U with
  | nil => intro cm; exact ⟨rfl, rfl⟩
  | cons kv rest ih =>
    intro cm
    obtain ⟨key, val⟩ := kv
    unfold mergeAppUpdates
    simp only []
    split
    · exact ⟨rfl, rfl⟩
    · split
      · exact ⟨rfl, rfl⟩
      · rename_i m hm
        have h := ih { cm with ObjectMeta := { cm.ObjectMeta with
          Labels := some (fun k => if k = key then some val else m k) } }
        exact h

/-- How `mergeAppUpdates` ends does not depend on the data of the config map. -/
theorem mergeAppUpdates_data :
    ∀ (U : MapEntries) (cm : ConfigMap) (d : String → Option String),
      (mergeAppUpdates { cm with Data := d } U).2 = (mergeAppUpdates cm U).2 := by
  intro U
  induction U with
  | nil => intro cm d; rfl
  | cons kv rest ih =>
    intro cm d
    obtain ⟨key, val⟩ := kv
    unfold mergeAppUpdates
    simp only []
    split
    · rfl
    · cases hL : cm.ObjectMeta.Labels with
      | none => rfl
      | some m =>
        simp only []
        exact ih { cm with ObjectMeta := { cm.ObjectMeta with
          Labels := some (fun k => if k = key then some val else m k) } } d

/-- An update on the faulty store leaves the contents as they were or puts the object
under its own name. -/
theorem faultyClient_update_store (fails : Nat → Bool) (ns : String) (cm : ConfigMap)
    (st : Store) (n : Nat) :
    ((faultyClient fails).Update ns cm (st, n)).2.1 = st ∨
      ((faultyClient fails).Update ns cm (st, n)).2.1 =
        fun key => if key = (ns, cm.ObjectMeta.Name) then some cm else st key := by
  by_cases hf : fails n = true
  · left
    simp [faultyClient, hf]
  · cases hold : st (ns, cm.ObjectMeta.Name) with
    | none =>
      left
      simp [faultyClient, memClient, hf, hold]
    | some other =>
      right
      simp [faultyClient, memClient, hf, hold]

/-- A read of the faulty store leaves the contents as they were. -/
theorem faultyClient_get_store (fails : Nat → Bool) (ns name : String) (st : Store) (n : Nat) :
    ((faultyClient fails).Get ns name (st, n)).2.1 = st := by
  by_cases hf : fails n = true
  · simp [faultyClient, hf]
  · cases hold : st (ns, name) with
    | none => simp [faultyClient, memClient, hf, hold]
    | some old => simp [faultyClient, memClient, hf, hold]

/-- A creation on the faulty store under a name that is taken: the outcome depends on
the object only through its name. -/
theorem faultyClient_create_present (fails : Nat → Bool) (ns : String) (cm old : ConfigMap)
    (st : Store) (n : Nat) (hold : st (ns, cm.ObjectMeta.Name) = some old) :
    (faultyClient fails).Create ns cm (st, n) =
      (Except.error
        (if fails n then ⟨StatusReason.Other, "connection refused"⟩
         else ⟨StatusReason.AlreadyExists,
           "configmaps " ++ cm.ObjectMeta.Name ++ " already exists"⟩), (st, n + 1)) := by
  by_cases hf : fails n = true
  · simp [faultyClient, hf]
  · simp [faultyClient, memClient, hf, hold]

/-- On the faulty store, `CreateOrUpdate` on an existing record leaves under its name a
record with the data it had. -/
theorem CreateOrUpdate_existing_data {M : Type} (A : AppEnv M) (fails : Nat → Bool)
    (a : RecordedApp M) (unixNano : Int) (U : MapEntries) (st : Store) (n : Nat)
    (old : ConfigMap) (hold : st (a.nsName, a.name) = some old) :
    ∃ cm, (CreateOrUpdate A (faultyClient fails) a unixNano U (st, n)).2.1
        (a.nsName, a.name) = some cm ∧ cm.Data = old.Data := by
  unfold CreateOrUpdate
  simp only []
  cases hm : mergeAppUpdates
      { ObjectMeta :=
          { Name := a.name
            Namespace := a.nsName
            Labels := some (fun k =>
              if k = A.KappIsAppLabelKey then some A.kappIsAppLabelValue else none) }
        Data := A.AsData
          { LabelKey := kappAppLabelKey
            LabelValue := toString unixNano
            LastChangeName := ""
            LastChange := A.zeroChangeMeta } } U with
  | mk cm1 k1 =>
    have hname : cm1.ObjectMeta.Name = a.name := by
      have := (mergeAppUpdates_frame U
        { ObjectMeta :=
            { Name := a.name
              Namespace := a.nsName
              Labels := some (fun k =>
                if k = A.KappIsAppLabelKey then some A.kappIsAppLabelValue else none) }
          Data := A.AsData
            { LabelKey := kappAppLabelKey
              LabelValue := toString unixNano
              LastChangeName := ""
              LastChange := A.zeroChangeMeta } }).2
      rw [hm] at this
      exact this
    cases k1 with
    | panicked reason => exact ⟨old, hold, rfl⟩
    | returned e =>
      cases e with
      | some err => exact ⟨old, hold, rfl⟩
      | none =>
        simp only []
        rw [faultyClient_create_present fails a.nsName cm1 old st n (by rw [hname]; exact hold)]
        simp only []
        by_cases hf : fails n = true
        · rw [if_pos hf, if_neg (by decide)]
          exact ⟨old, hold, rfl⟩
        · rw [if_neg hf, if_pos rfl]
          cases hg : (faultyClient fails).Get a.nsName a.name (st, n + 1) with
          | mk r s2 =>
            have hs2 : s2.1 = st := by
              have := faultyClient_get_store fails a.nsName a.name st (n + 1)
              rw [hg] at this
              exact this
            cases r with
            | error e => exact ⟨old, by simp only []; rw [hs2]; exact hold, rfl⟩
            | ok existing =>
              have hex : existing = old := by
                have := (faultyClient_get_ok fails a.nsName a.name st (n + 1) existing
                  (by rw [hg])).1
                rw [hold] at this
                exact (Option.some.inj this).symm
              subst hex
              simp only []
              cases hm2 : mergeAppUpdates existing U with
              | mk cm2 k2 =>
                have hdata : cm2.Data = existing.Data := by
                  have := (mergeAppUpdates_frame U existing).1
                  rw [hm2] at this
                  exact this
                cases k2 with
                | panicked reason =>
                  exact ⟨existing, by simp only []; rw [hs2]; exact hold, rfl⟩
                | returned e =>
                  cases e with
                  | some err => exact ⟨existing, by simp only []; rw [hs2]; exact hold, rfl⟩
                  | none =>
                    simp only []
                    obtain ⟨st2, n2⟩ := s2
                    simp only [] at hs2
                    subst hs2
                    have hstore := faultyClient_update_store fails a.nsName cm2 st2 n2
                    cases hu : (faultyClient fails).Update a.nsName cm2 (st2, n2) with
                    | mk r3 s3 =>
                      rw [hu] at hstore
                      simp only [] at hstore
                      have hfinal : ∃ cm, s3.1 (a.nsName, a.name) = some cm ∧
                          cm.Data = existing.Data := by
                        rcases hstore with h | h
                        · rw [h]
                          exact ⟨existing, hold, rfl⟩
                        · rw [h]
                          by_cases hk : (a.nsName, a.name) = (a.nsName, cm2.ObjectMeta.Name)
                          · exact ⟨cm2, by simp [hk], hdata⟩
                          · exact ⟨existing, by simp [hk, hold], rfl⟩
                      cases r3 with
                      | error e => exact hfinal
                      | ok updated => exact hfinal

/-- On the faulty store, `CreateOrUpdate` on an existing record does not use the clock. -/
theorem CreateOrUpdate_existing_clock {M : Type} (A : AppEnv M) (fails : Nat → Bool)
    (a : RecordedApp M) (t1 t2 : Int) (U : MapEntries) (st : Store) (n : Nat)
    (old : ConfigMap) (hold : st (a.nsName, a.name) = some old) :
    CreateOrUpdate A (faultyClient fails) a t1 U (st, n) =
      CreateOrUpdate A (faultyClient fails) a t2 U (st, n) := by
  have hk := mergeAppUpdates_data U
    { ObjectMeta :=
        { Name := a.name
          Namespace := a.nsName
          Labels := some (fun k =>
            if k = A.KappIsAppLabelKey then some A.kappIsAppLabelValue else none) }
      Data := A.AsData
        { LabelKey := kappAppLabelKey
          LabelValue := toString t1
          LastChangeName := ""
          LastChange := A.zeroChangeMeta } }
    (A.AsData
      { LabelKey := kappAppLabelKey
        LabelValue := toString t2
        LastChangeName := ""
        LastChange := A.zeroChangeMeta })
  have hn1 := (mergeAppUpdates_frame U
    { ObjectMeta :=
        { Name := a.name
          Namespace := a.nsName
          Labels := some (fun k =>
            if k = A.KappIsAppLabelKey then some A.kappIsAppLabelValue else none) }
      Data := A.AsData
        { LabelKey := kappAppLabelKey
          LabelValue := toString t1
          LastChangeName := ""
          LastChange := A.zeroChangeMeta } }).2
  have hn2 := (mergeAppUpdates_frame U
    { ObjectMeta :=
        { Name := a.name
          Namespace := a.nsName
          Labels := some (fun k =>
            if k = A.KappIsAppLabelKey then some A.kappIsAppLabelValue else none) }
      Data := A.AsData
        { LabelKey := kappAppLabelKey
          LabelValue := toString t2
          LastChangeName := ""
          LastChange := A.zeroChangeMeta } }).2
  unfold CreateOrUpdate
  simp only [] at hk hn1 hn2 ⊢
  cases hm1 : mergeAppUpdates
      { ObjectMeta :=
          { Name := a.name
            Namespace := a.nsName
            Labels := some (fun k =>
              if k = A.KappIsAppLabelKey then some A.kappIsAppLabelValue else none) }
        Data := A.AsData
          { LabelKey := kappAppLabelKey
            LabelValue := toString t1
            LastChangeName := ""
            LastChange := A.zeroChangeMeta } } U with
  | mk cm1 k1 =>
    cases hm2 : mergeAppUpdates
        { ObjectMeta :=
            { Name := a.name
              Namespace := a.nsName
              Labels := some (fun k =>
                if k = A.KappIsAppLabelKey then some A.kappIsAppLabelValue else none) }
          Data := A.AsData
            { LabelKey := kappAppLabelKey
              LabelValue := toString t2
              LastChangeName := ""
              LastChange := A.zeroChangeMeta } } U with
    | mk cm2 k2 =>
      rw [hm1] at hn1 hk
      rw [hm2] at hn2 hk
      simp only [] at hn1 hn2 hk
      subst hk
      cases k2 with
      | panicked reason => rfl
      | returned e =>
        cases e with
        | some err => rfl
        | none =>
          simp only []
          rw [faultyClient_create_present fails a.nsName cm1 old st n (by rw [hn1]; exact hold),
            faultyClient_create_present fails a.nsName cm2 old st n (by rw [hn2]; exact hold),
            hn1, hn2]

/-- On the faulty store, a `CreateOrUpdate` that returns nil where there was no record
has stored the data made from the clock reading. -/
theorem CreateOrUpdate_absent_data {M : Type} (A : AppEnv M) (fails : Nat → Bool)
    (a : RecordedApp M) (unixNano : Int) (U : MapEntries) (st : Store) (n : Nat)
    (habsent : st (a.nsName, a.name) = none)
    (hnil : (CreateOrUpdate A (faultyClient fails) a unixNano U (st, n)).1 =
      Completion.returned none) :
    ∃ cm, (CreateOrUpdate A (faultyClient fails) a unixNano U (st, n)).2.1
        (a.nsName, a.name) = some cm ∧ cm.Data = initialData A unixNano := by
  have hframe := mergeAppUpdates_frame U
    { ObjectMeta :=
        { Name := a.name
          Namespace := a.nsName
          Labels := some (fun k =>
            if k = A.KappIsAppLabelKey then some A.kappIsAppLabelValue else none) }
      Data := A.AsData
        { LabelKey := kappAppLabelKey
          LabelValue := toString unixNano
          LastChangeName := ""
          LastChange := A.zeroChangeMeta } }
  unfold CreateOrUpdate at hnil ⊢
  simp only [] at hframe hnil ⊢
  cases hm : mergeAppUpdates
      { ObjectMeta :=
          { Name := a.name
            Namespace := a.nsName
            Labels := some (fun k =>
              if k = A.KappIsAppLabelKey then some A.kappIsAppLabelValue else none) }
        Data := A.AsData
          { LabelKey := kappAppLabelKey
            LabelValue := toString unixNano
            LastChangeName := ""
            LastChange := A.zeroChangeMeta } } U with
  | mk cm1 k1 =>
    rw [hm] at hframe hnil
    simp only [] at hframe
    obtain ⟨hdata, hname⟩ := hframe
    cases k1 with
    | panicked reason => simp at hnil
    | returned e =>
      cases e with
      | some err => simp at hnil
      | none =>
        simp only [] at hnil ⊢
        by_cases hf : fails n = true
        · simp [faultyClient, hf] at hnil
        · refine ⟨cm1, ?_, hdata⟩
          simp [faultyClient, memClient, hf, habsent, hname]

/-- C21 (the stored data of an existing record is never rewritten by `CreateOrUpdate`),
on the in-memory store whose calls may fail without effect.  For every existing record
and every label map, however `CreateOrUpdate` ends (nil, an error, or the panic on a nil
label map), the record stored under the app's name afterwards has the data it had, so
parsing it gives the same `LabelKey`, `LabelValue`, `LastChangeName` and `LastChange`; the
outcome and the store do not depend on the clock reading; and where there was no record,
a call that returns nil has stored the data made from the clock reading. -/
theorem create_or_update_keeps_stored_data {M : Type} (A : AppEnv M) (fails : Nat → Bool)
    (a : RecordedApp M) (U : MapEntries) (st : Store) (n : Nat) :
    (∀ old unixNano, st (a.nsName, a.name) = some old →
        ∃ cm, (CreateOrUpdate A (faultyClient fails) a unixNano U (st, n)).2.1
            (a.nsName, a.name) = some cm ∧
          cm.Data = old.Data ∧
          A.NewAppMetaFromData cm.Data = A.NewAppMetaFromData old.Data) ∧
      (∀ old t1 t2, st (a.nsName, a.name) = some old →
        CreateOrUpdate A (faultyClient fails) a t1 U (st, n) =
          CreateOrUpdate A (faultyClient fails) a t2 U (st, n)) ∧
      (∀ unixNano, st (a.nsName, a.name) = none →
        (CreateOrUpdate A (faultyClient fails) a unixNano U (st, n)).1 =
          Completion.returned none →
        ∃ cm, (CreateOrUpdate A (faultyClient fails) a unixNano U (st, n)).2.1
            (a.nsName, a.name) = some cm ∧
          cm.Data = A.AsData
            { LabelKey := kappAppLabelKey, LabelValue := toString unixNano,
              LastChangeName := "", LastChange := A.zeroChangeMeta }) := by
  refine ⟨?_, ?_, ?_⟩
  · intro old unixNano hold
    obtain ⟨cm, hcm, hdata⟩ := CreateOrUpdate_existing_data A fails a unixNano U st n old hold
    exact ⟨cm, hcm, hdata, by rw [hdata]⟩
  · intro old t1 t2 hold
    exact CreateOrUpdate_existing_clock A fails a t1 t2 U st n old hold
  · intro unixNano habsent hnil
    exact CreateOrUpdate_absent_data A fails a unixNano U st n habsent hnil

/-- C21 at the record of `app1`, updated with the label `team=a` at another clock
reading: the data still holds the label value `1` written at creation. -/
theorem create_or_update_keeps_stored_data_witness :
    ∃ cm,
      (CreateOrUpdate sampleAppEnv (faultyClient (fun _ => false))
          { name := "app1", nsName := "ns" } 2 [("team", "a")] (sampleStore, 0)).2.1
          ("ns", "app1") = some cm ∧
        cm.Data = sampleRecord.Data ∧
        sampleAppEnv.NewAppMetaFromData cm.Data =
          sampleAppEnv.NewAppMetaFromData sampleRecord.Data :=
  (create_or_update_keeps_stored_data sampleAppEnv (fun _ => false)
    { name := "app1", nsName := "ns" } [("team", "a")] sampleStore 0).1
    sampleRecord 2 rfl

end Kapp
